import Mathlib

/-!
Verification of the grpc_texas_holdem poker server core against its
natural-language specification.

The Go source is shallowly embedded: the `deck` package, the `models`
package, the `game_ring` package and the hand-lifecycle engine of
`poker/server/server.go` become executable Lean definitions over explicit
state records.  Machine integers (`int64`, `uint32`) are modelled as
`Int`/`Nat`: every quantity involved (chips, slots, ids, scores) stays far
below 2^63 in all states considered, so no wraparound can occur and the
unbounded types are faithful.  Go functions returning `error` become
`Except`-valued functions; a Go runtime panic (e.g. an index out of range)
is modelled by `Option.none` / a dedicated constructor and is distinguished
from a returned error.

The persistent store is modelled as a record holding the one table, its one
live hand, the player rows and the append-only bet log — exactly the rows
the hand-lifecycle engine touches.  gorm's `Updates(struct)` semantics
(zero-valued fields are not written) are reproduced where the engine relies
on them.

The hand evaluator (`deck.Logic`), and the seat-ring helpers `NextInHand`
and `FirstOnBet`, are declared and called by the repository but their
bodies are not among the provided sources; they are modelled from the
specification's words and marked as such in their doc comments.
-/

deriving instance DecidableEq for Except

namespace Poker

/-! ## RoundStatus and Bet type enums (protobufs/poker.proto) -/

/-- `RoundStatus` enum of poker.proto: NOT_STARTED=0, PRE_FLOP=1, FLOP=2,
RIVER=3, TURN=4, SHOW=5, OVER=6 (RIVER precedes TURN in the source). -/
inductive RoundStatus
  | NOT_STARTED
  | PRE_FLOP
  | FLOP
  | RIVER
  | TURN
  | SHOW
  | OVER
  deriving DecidableEq, Repr

/-- `RoundStatus.String()`: the protobuf enum name. -/
def RoundStatus.goString : RoundStatus → String
  | .NOT_STARTED => "NOT_STARTED"
  | .PRE_FLOP => "PRE_FLOP"
  | .FLOP => "FLOP"
  | .RIVER => "RIVER"
  | .TURN => "TURN"
  | .SHOW => "SHOW"
  | .OVER => "OVER"

/-- `pb.RoundStatus(pb.RoundStatus_value[s])`: name-to-enum lookup; a Go map
read of a missing key yields the zero value, i.e. NOT_STARTED. -/
def roundStatusOfString (s : String) : RoundStatus :=
  if s = "PRE_FLOP" then .PRE_FLOP
  else if s = "FLOP" then .FLOP
  else if s = "RIVER" then .RIVER
  else if s = "TURN" then .TURN
  else if s = "SHOW" then .SHOW
  else if s = "OVER" then .OVER
  else .NOT_STARTED

/-- `Bet.BetType` enum of poker.proto: NONE=0, FOLD=1, CALL=2, RAISE=3,
SMALL=4, BIG=5. -/
inductive BetType
  | NONE
  | FOLD
  | CALL
  | RAISE
  | SMALL
  | BIG
  deriving DecidableEq, Repr

/-- `Bet_BetType.String()`: the protobuf enum name. -/
def BetType.goString : BetType → String
  | .NONE => "NONE"
  | .FOLD => "FOLD"
  | .CALL => "CALL"
  | .RAISE => "RAISE"
  | .SMALL => "SMALL"
  | .BIG => "BIG"

/-- `pb.Bet_BetType(pb.Bet_BetType_value[s])`: name-to-enum lookup, zero
value NONE for a missing key. -/
def betTypeOfString (s : String) : BetType :=
  if s = "FOLD" then .FOLD
  else if s = "CALL" then .CALL
  else if s = "RAISE" then .RAISE
  else if s = "SMALL" then .SMALL
  else if s = "BIG" then .BIG
  else .NONE

/-! ## The deck package (poker/deck) -/

/-- `deck.Card`: a rank character (`Type` field) and a suit character. -/
structure Card where
  type : String
  suit : String
  deriving DecidableEq, Repr

/-- `Card.String()`: rank then suit, concatenated. -/
def Card.str (c : Card) : String := c.type ++ c.suit

/-- `deck.Deck`: an ordered card sequence. -/
abbrev Deck := List Card

/-- `Deck.String()`: concatenation of the two-character card encodings. -/
def Deck.str (d : Deck) : String := String.join (d.map Card.str)

/-- Helper for `Deck.Marshal`: consume characters pairwise, first of each
pair the rank, second the suit; a trailing unpaired character is dropped,
exactly as the even-index loop of the source does. -/
def marshalChars : List Char → List Card
  | c1 :: c2 :: rest => { type := String.mk [c1], suit := String.mk [c2] } :: marshalChars rest
  | _ => []

/-- `Deck.Marshal`: parse an encoded string back into a deck. -/
def Deck.marshal (s : String) : Deck := marshalChars s.toList

/-- The rank array of `deck.New()`, low to high. -/
def cardTypes : List String :=
  ["2", "3", "4", "5", "6", "7", "8", "9", "T", "J", "Q", "K", "A"]

/-- The suit array of `deck.New()`. -/
def cardSuits : List String := ["h", "d", "c", "s"]

/-- `deck.New()`: the canonical 52-card sequence, rank-major, suit-minor. -/
def deckNew : Deck :=
  cardTypes.flatMap (fun t => cardSuits.map (fun s => { type := t, suit := s }))

/-- `Deck.IsFull()`: length is exactly 52. -/
def Deck.isFull (d : Deck) : Bool := d.length == 52

/-- `deck.DealCard`: `c, d := d[len(d)-1], d[:len(d)-1]` — take the last
card.  On the empty deck the Go expression `d[len(d)-1]` raises an
index-out-of-range runtime panic, aborting the process; `none` models that
panic.  The function's Go type `(Card, Deck)` has no error channel at all. -/
def DealCard (d : Deck) : Option (Card × Deck) :=
  match d.getLast? with
  | none => none
  | some c => some (c, d.dropLast)

/-- The error kind the specification postulates for dealing from an empty
deck. -/
inductive DeckErr
  | DeckExhausted
  deriving DecidableEq, Repr

/-- Modelled from the spec (spec-side definition used only to state what the
claim demands of `DealCard`, for comparison with the source definition
above): "`DealCard` on an empty deck fails with `DeckExhausted`", otherwise
it removes and returns the last card. -/
def DealCardSpec (d : Deck) : Except DeckErr (Card × Deck) :=
  match d.getLast? with
  | none => .error .DeckExhausted
  | some c => .ok (c, d.dropLast)

/-! ## Protobuf messages (the fields the engine uses) -/

/-- `pb.Player`. -/
structure PbPlayer where
  id : Int
  name : String
  chips : Int
  slot : Int
  inHand : Bool
  cards : String
  score : Nat
  deriving DecidableEq, Repr

/-- `pb.Game` (the `rounds` field is never read by the engine). -/
structure PbGame where
  id : Int
  name : String
  dealer : Int
  min : Int
  inRound : Bool
  players : List PbPlayer
  deriving DecidableEq, Repr

/-- `pb.Round`. -/
structure PbRound where
  id : Int
  status : RoundStatus
  players : List PbPlayer
  deck : String
  flop : String
  turn : String
  river : String
  game : Int
  action : Int
  winningPlayer : Int
  winningHand : String
  winningScore : Nat
  deriving DecidableEq, Repr

/-- `pb.Bet`. -/
structure PbBet where
  id : Int
  status : RoundStatus
  round : Int
  game : Int
  player : Int
  chips : Int
  type : BetType
  deriving DecidableEq, Repr

/-! ## The models package: database rows and their (un)marshalling -/

/-- `models.Player` row. -/
structure DbPlayer where
  id : Int
  name : String
  chips : Int
  slot : Int
  cards : String
  inHand : Bool
  deriving DecidableEq, Repr

/-- `models.Game` row. -/
structure DbGame where
  id : Int
  name : String
  dealer : Int
  min : Int
  inRound : Bool
  deriving DecidableEq, Repr

/-- `models.Round` row. -/
structure DbRound where
  id : Int
  deck : String
  status : String
  flop : String
  turn : String
  river : String
  game : Int
  action : Int
  winningPlayer : Int
  winningHand : String
  winningScore : Nat
  deriving DecidableEq, Repr

/-- `models.Bet` row. -/
structure DbBet where
  status : String
  round : Int
  game : Int
  player : Int
  chips : Int
  type : String
  deriving DecidableEq, Repr

/-- `models.Player.ProtoMarshal`. -/
def DbPlayer.protoMarshal (p : DbPlayer) : PbPlayer :=
  { id := p.id, name := p.name, chips := p.chips, slot := p.slot
    inHand := p.inHand, cards := p.cards, score := 0 }

/-- `models.Bet.ProtoUnMarshal` (poker/models/bet.go lines 19-28).  The
source assigns `b.Player = bet.GetGame()`, so the row's `player` column
receives the bet's *game* id, not its player id; the embedding reproduces
that assignment verbatim. -/
def betProtoUnMarshal (b : PbBet) : DbBet :=
  { status := b.status.goString
    round := b.round
    game := b.game
    player := b.game
    chips := b.chips
    type := b.type.goString }

/-- `models.Bet.ProtoMarshal`. -/
def DbBet.protoMarshal (b : DbBet) : PbBet :=
  { id := 0, status := roundStatusOfString b.status, round := b.round
    game := b.game, player := b.player, chips := b.chips
    type := betTypeOfString b.type }

/-- `models.Round.ProtoMarshal` (players are attached separately by
`GetRound`). -/
def DbRound.protoMarshal (r : DbRound) : PbRound :=
  { id := r.id, status := roundStatusOfString r.status, players := []
    deck := r.deck, flop := r.flop, turn := r.turn, river := r.river
    game := r.game, action := r.action, winningPlayer := r.winningPlayer
    winningHand := r.winningHand, winningScore := r.winningScore }

/-- `models.Round.ProtoUnMarshal`. -/
def roundProtoUnMarshal (r : PbRound) : DbRound :=
  { id := r.id, deck := r.deck, status := r.status.goString, flop := r.flop
    turn := r.turn, river := r.river, game := r.game, action := r.action
    winningPlayer := r.winningPlayer, winningHand := r.winningHand
    winningScore := r.winningScore }

/-! ## The game_ring package (poker/server/game_ring) -/

/-- Errors of the game_ring package. -/
inductive RingErr
  | NilRingItems
  | IncorrectRingValueType
  | DealerNotSet
  | PlayerNotSet
  deriving DecidableEq, Repr

/-- Insertion of a player into a slot-ascending list; models the comparator
`players[i].GetSlot() < players[j].GetSlot()` of `sort.Slice`. -/
def insertBySlot (x : PbPlayer) : List PbPlayer → List PbPlayer
  | [] => [x]
  | y :: ys => if x.slot < y.slot then x :: y :: ys else y :: insertBySlot x ys

/-- The slot-ascending sort performed by `NewRing`.  `sort.Slice` is
unstable, but every state considered has pairwise distinct slots, for which
the sorted order is unique, so insertion sort models it exactly. -/
def sortBySlot : List PbPlayer → List PbPlayer
  | [] => []
  | x :: xs => insertBySlot x (sortBySlot xs)

/-- `game_ring.GameRing`: the cyclic view.  `container/ring` is modelled as
the slot-sorted player list plus a cursor; `Next()` advances the cursor
cyclically. -/
structure GameRing where
  players : List PbPlayer
  cursor : Nat
  dealer : Int
  deriving DecidableEq, Repr

/-- Ring length. -/
def GameRing.len (r : GameRing) : Nat := r.players.length

/-- `ring.Next()` / the package-local `next()`. -/
def GameRing.nextR (r : GameRing) : GameRing :=
  { r with cursor := (r.cursor + 1) % r.len }

/-- The element under the cursor. -/
def GameRing.value? (r : GameRing) : Option PbPlayer := r.players.get? r.cursor

/-- `game_ring.NewRing`: sort the game's players by slot and start the
cursor on the first inserted player.  (The nil-slot validation never fires
in the embedding: every list cell holds a player.) -/
def newRing (g : PbGame) : GameRing :=
  { players := sortBySlot g.players, cursor := 0, dealer := g.dealer }

/-- First index `j = (start+i) % n`, `i < n`, satisfying `p`: the cyclic
scan pattern `for i := 0; i < g.Len(); i++ { ...; g.next() }`. -/
def findCyclic (n start : Nat) (p : Nat → Bool) : Option Nat :=
  (List.range n).findSome? (fun i => let j := (start + i) % n; if p j then some j else none)

/-- `GameRing.CurrentDealer`: cyclic scan from the cursor for the player
whose slot equals the game's dealer; positions the cursor there, or fails
with `DealerNotSet` after a full loop. -/
def GameRing.currentDealer (r : GameRing) : Except RingErr GameRing :=
  match findCyclic r.len r.cursor
      (fun j => match r.players.get? j with
        | some p => p.slot == r.dealer
        | none => false) with
  | some j => .ok { r with cursor := j }
  | none => .error .DealerNotSet

/-- `GameRing.headsUp`: exactly two ring members. -/
def GameRing.headsUp (r : GameRing) : Bool := r.len == 2

/-- `GameRing.CurrentSmallBlind` (game_ring.go lines 208-225): heads-up the
cursor stays on the dealer; otherwise dealer then one step. -/
def GameRing.currentSmallBlind (r : GameRing) : Except RingErr GameRing :=
  if r.headsUp then r.currentDealer
  else (r.currentDealer).map GameRing.nextR

/-- `GameRing.CurrentBigBlind` (game_ring.go lines 153-171): heads-up the
non-dealer posts the big blind (dealer then one step); otherwise small
blind then one step. -/
def GameRing.currentBigBlind (r : GameRing) : Except RingErr GameRing :=
  if r.headsUp then (r.currentDealer).map GameRing.nextR
  else (r.currentSmallBlind).map GameRing.nextR

/-- `GameRing.MarshalValue`: the player under the cursor. -/
def GameRing.marshalValue (r : GameRing) : Except RingErr PbPlayer :=
  match r.value? with
  | some p => .ok p
  | none => .error .IncorrectRingValueType

/-- `GameRing.GetBigAndSmallBlind`: small blind first, then big blind on
the moved ring, returning `(big, small)` and the final ring. -/
def GameRing.getBigAndSmallBlind (r : GameRing) :
    Except RingErr (PbPlayer × PbPlayer × GameRing) :=
  match r.currentSmallBlind with
  | .error e => .error e
  | .ok r1 =>
  match r1.marshalValue with
  | .error e => .error e
  | .ok small =>
  match r1.currentBigBlind with
  | .error e => .error e
  | .ok r2 =>
  match r2.marshalValue with
  | .error e => .error e
  | .ok big => .ok (big, small, r2)

/-- `GameRing.GetPlayerFromSlot`: cyclic scan for the given slot; the
cursor stops on the found player. -/
def GameRing.getPlayerFromSlot (r : GameRing) (slot : Int) : Except RingErr GameRing :=
  match findCyclic r.len r.cursor
      (fun j => match r.players.get? j with
        | some p => p.slot == slot
        | none => false) with
  | some j => .ok { r with cursor := j }
  | none => .error .PlayerNotSet

/-- Modelled from the spec: `NextInHand` is called by `SetNextOnBet` but its
body is not among the provided sources.  Spec §4.C: "`next_in_hand(from)` —
starting strictly after `from`, advances until a player with
`in_hand == true` is found; wraps around."  The cursor is on `from`. -/
def GameRing.nextInHand (r : GameRing) : Except RingErr PbPlayer :=
  match findCyclic r.len ((r.cursor + 1) % r.len)
      (fun j => match r.players.get? j with
        | some p => p.inHand
        | none => false) with
  | some j =>
    match r.players.get? j with
    | some p => .ok p
    | none => .error .PlayerNotSet
  | none => .error .PlayerNotSet

/-- Modelled from the spec: `FirstOnBet` is called by `SetNextRound` but its
body is not among the provided sources.  Spec §4.E.5: on a street transition
the action is reset to "the first still-in-hand player *after* the dealer
(the seat ring's `next_in_hand(dealer)`)". -/
def GameRing.firstOnBet (r : GameRing) : Except RingErr PbPlayer :=
  match r.currentDealer with
  | .error e => .error e
  | .ok r1 => r1.nextInHand

/-! ## The hand evaluator

`deck.Logic` (and `deck.NewHand`) are called by `deck.EvaluateHand` and by
the engine's showdown, and exercised by poker/deck/evaluate_test.go, but
their bodies are not among the provided sources.  They are modelled from
the spec §4.B: a 5-card hand scores into the canonical 7462 equivalence
classes (1 = royal flush … 7462 = 7-5-4-3-2 offsuit); a 6- or 7-card hand
scores the minimum over its 5-card subsets. -/

/-- Rank character to numeric rank, 2..14; 0 for an unknown string. -/
def rankValue (t : String) : Nat :=
  if t = "2" then 2
  else if t = "3" then 3
  else if t = "4" then 4
  else if t = "5" then 5
  else if t = "6" then 6
  else if t = "7" then 7
  else if t = "8" then 8
  else if t = "9" then 9
  else if t = "T" then 10
  else if t = "J" then 11
  else if t = "Q" then 12
  else if t = "K" then 13
  else if t = "A" then 14
  else 0

/-- Numeric rank of a card. -/
def cardRank (c : Card) : Nat := rankValue c.type

/-- All thirteen ranks, best first. -/
def ranksDesc : List Nat := [14, 13, 12, 11, 10, 9, 8, 7, 6, 5, 4, 3, 2]

/-- All `k`-element sublists of `l`, in the order that lists those keeping
earlier elements first; over a descending rank list this enumerates rank
combinations from the strongest high-card hand downwards. -/
def combos {α : Type} : Nat → List α → List (List α)
  | 0, _ => [[]]
  | _ + 1, [] => []
  | k + 1, x :: xs => (combos k xs).map (x :: ·) ++ combos (k + 1) xs

/-- Descending insertion. -/
def insertDesc (x : Nat) : List Nat → List Nat
  | [] => [x]
  | y :: ys => if y ≤ x then x :: y :: ys else y :: insertDesc x ys

/-- Descending sort of ranks. -/
def sortDesc : List Nat → List Nat
  | [] => []
  | x :: xs => insertDesc x (sortDesc xs)

/-- High card of a straight, given the distinct ranks in descending order:
the wheel A-5-4-3-2 counts as a 5-high straight. -/
def straightHigh (u : List Nat) : Option Nat :=
  if u = [14, 5, 4, 3, 2] then some 5
  else
    match u with
    | [a, b, c, d, e] =>
      if a == b + 1 && b == c + 1 && c == d + 1 && d == e + 1 then some a else none
    | _ => none

/-- Index of a rank-combination in a combination list (its position in the
canonical strength order). -/
def comboIdxIn (l : List (List Nat)) (c : List Nat) : Nat := l.findIdx (· == c)

/-- The 1277 descending 5-rank combinations that are not straights, best
first: the shared class order of flushes (323..1599) and of high cards
(6186..7462). -/
def flushCombos : List (List Nat) :=
  (combos 5 ranksDesc).filter (fun c => (straightHigh c).isNone)

/-- Descending rank pairs, best first (two-pair class order). -/
def pairPairCombos : List (List Nat) := combos 2 ranksDesc

/-- Descending kicker pairs avoiding rank `t` (three-of-a-kind class
order). -/
def kicker2Combos (t : Nat) : List (List Nat) :=
  combos 2 (ranksDesc.filter (fun r => r ≠ t))

/-- Descending kicker triples avoiding rank `p` (one-pair class order). -/
def kicker3Combos (p : Nat) : List (List Nat) :=
  combos 3 (ranksDesc.filter (fun r => r ≠ p))

/-- Index of kicker `k` among the twelve ranks other than `q`, best
first. -/
def kickerIdx1 (k q : Nat) : Nat := (14 - k) - (if q > k then 1 else 0)

/-- Index of kicker `k` among the eleven ranks other than `p1, p2`, best
first. -/
def kickerIdx2 (k p1 p2 : Nat) : Nat :=
  (14 - k) - (if p1 > k then 1 else 0) - (if p2 > k then 1 else 0)

/-- Score a 5-card hand from its ranks-with-multiplicity (descending) and
its flush flag.  Classes: straight flush 1..10, quads 11..166, full house
167..322, flush 323..1599, straight 1600..1609, trips 1610..2467, two pair
2468..3325, pair 3326..6185, high card 6186..7462. -/
def eval5Ranks (s : List Nat) (flush : Bool) : Nat :=
  let u := s.dedup
  match straightHigh u, flush with
  | some h, true => 1 + (14 - h)
  | sh, _ =>
    match u.find? (fun r => s.count r == 4) with
    | some q =>
      let k := ((u.filter (fun r => r ≠ q)).headD 0)
      11 + 12 * (14 - q) + kickerIdx1 k q
    | none =>
      match u.find? (fun r => s.count r == 3), u.filter (fun r => s.count r == 2) with
      | some t, p :: _ => 167 + 12 * (14 - t) + kickerIdx1 p t
      | t?, prs =>
        if flush then 323 + comboIdxIn flushCombos u
        else
          match sh with
          | some h => 1600 + (14 - h)
          | none =>
            match t? with
            | some t =>
              1610 + 66 * (14 - t) + comboIdxIn (kicker2Combos t) (u.filter (fun r => r ≠ t))
            | none =>
              match prs with
              | [p1, p2] =>
                let k := (u.filter (fun r => r ≠ p1 ∧ r ≠ p2)).headD 0
                2468 + 11 * comboIdxIn pairPairCombos [p1, p2] + kickerIdx2 k p1 p2
              | [p] =>
                3326 + 220 * (14 - p) + comboIdxIn (kicker3Combos p) (u.filter (fun r => r ≠ p))
              | _ => 6186 + comboIdxIn flushCombos u

/-- Score a 5-card hand. -/
def eval5 (cards : List Card) : Nat :=
  let flush :=
    match cards with
    | c :: rest => rest.all (fun x => x.suit == c.suit)
    | [] => false
  eval5Ranks (sortDesc (cards.map cardRank)) flush

/-- Minimum of a score list (0 on the empty list, which no 5..7-card input
produces). -/
def minScores : List Nat → Nat
  | [] => 0
  | x :: xs => xs.foldl min x

/-- Best achievable score: the minimum of `eval5` over all 5-card subsets
(for a 5-card input the only subset is the hand itself). -/
def evalBest (cards : List Card) : Nat := minScores ((combos 5 cards).map eval5)

/-- Modelled from the spec: `deck.Logic`, the evaluator entry point on
two-character card strings, absent from the provided sources.  Spec §4.B:
returns the 1..7462 class score, minimising over 5-card subsets for 6-7
card inputs. -/
def Logic (hand : List String) : Nat :=
  evalBest (hand.map (fun cs => (Deck.marshal cs).headD { type := "", suit := "" }))

/-- `deck.EvaluateHand` (poker/server/game.go lines 254-261): stringify the
cards and call `Logic`. -/
def EvaluateHand (cards : List Card) : Nat := Logic (cards.map Card.str)

/-- Modelled from the spec: `deck.NewHand(s).EvaluateHand()` as used by the
showdown — parse the concatenated two-character encoding, then score. -/
def evaluateHandString (s : String) : Nat := evalBest (Deck.marshal s)

/-! ## The hand-lifecycle engine (poker/server/server.go)

The persistent store is modelled as the rows the engine touches for one
table: its player rows, the game row, the live round row and the bet log.
The GamePlayers and RoundPlayers joins both resolve to `players` — the
engine snapshots the table's players into the round at creation, and every
state considered is past that point.  Where ids are looked up, the states
considered carry pairwise distinct row ids, so `find?` models the SQL
lookup exactly. -/

/-- The store rows of the one table under consideration. -/
structure ServerSt where
  players : List DbPlayer
  game : DbGame
  round : DbRound
  bets : List DbBet
  deriving DecidableEq, Repr

/-- Error values of the server package. -/
inductive SrvErr
  | GameDoesntExist
  | GameIsNotInRound
  | GameInRound
  | PlayerDoesntExist
  | PlayerNotOnAction
  | PlayerNotInHand
  | NoBetsAllowed
  | WrongBetStatus
  | InsufficientBet
  | InsufficientChips
  | IncorrectBetForBetType
  | WrongBetType
  | NoBetTypeSet
  | InvalidSlotNumber
  | InvalidSlotMinMax
  | InvalidButtonAllocation
  | NoBetSet
  | InvalidPlayerCount
  | ExistingCards
  | NoExistingCards
  | DeckNotFull
  | IncompleteBets
  | EmptyGameName
  | Ring (e : RingErr)
  | GoPanic
  deriving DecidableEq, Repr

/-- The table's players as hydrated protobufs (the GamePlayers /
RoundPlayers join followed by `GetPlayers`). -/
def hydratedPlayers (st : ServerSt) : List PbPlayer :=
  st.players.map DbPlayer.protoMarshal

/-- `Server.GetGame`: the game row hydrated with its players; a missing id
is `GameDoesntExist`. -/
def getGame (st : ServerSt) (id : Int) : Except SrvErr PbGame :=
  if id = st.game.id then
    .ok { id := st.game.id, name := st.game.name, dealer := st.game.dealer
          min := st.game.min, inRound := st.game.inRound
          players := hydratedPlayers st }
  else .error .GameDoesntExist

/-- `Server.GetRound`: the round row hydrated with its players. -/
def getRound (st : ServerSt) (id : Int) : Except SrvErr PbRound :=
  if id = st.round.id then
    .ok { st.round.protoMarshal with players := hydratedPlayers st }
  else .error .GameDoesntExist

/-- The proto view of the stored game, as `GetGame` returns it on its own
id: the row hydrated with the table's players. -/
def gameView (st : ServerSt) : PbGame :=
  { id := st.game.id, name := st.game.name, dealer := st.game.dealer
    min := st.game.min, inRound := st.game.inRound
    players := hydratedPlayers st }

/-- `Server.GetPlayer` by id. -/
def getPlayerSrv (st : ServerSt) (id : Int) : Except SrvErr PbPlayer :=
  match st.players.find? (fun p => p.id == id) with
  | some p => .ok p.protoMarshal
  | none => .error .PlayerDoesntExist

/-- A row-level player update keyed on id. -/
def updatePlayerRow (st : ServerSt) (id : Int) (f : DbPlayer → DbPlayer) : ServerSt :=
  { st with players := st.players.map (fun p => if p.id == id then f p else p) }

/-- `Server.UpdatePlayerNotinHand`: single-column write of `InHand =
false`. -/
def updatePlayerNotinHand (st : ServerSt) (id : Int) : ServerSt :=
  updatePlayerRow st id (fun p => { p with inHand := false })

/-- `Server.UpdatePlayersChips`: single-column write of `chips` per
player. -/
def updatePlayersChips (st : ServerSt) (ps : List PbPlayer) : ServerSt :=
  ps.foldl (fun acc p => updatePlayerRow acc p.id (fun q => { q with chips := p.chips })) st

/-- `Server.UpdatePlayersCards`: gorm `Updates` with `{Cards, InHand:
true}` — the zero-valued field `Cards = ""` would be skipped; `InHand =
true` is always written. -/
def updatePlayersCards (st : ServerSt) (ps : List PbPlayer) : ServerSt :=
  ps.foldl
    (fun acc p =>
      updatePlayerRow acc p.id
        (fun q => { q with cards := if p.cards = "" then q.cards else p.cards, inHand := true }))
    st

/-- `Server.SetPlayerSlot`: slot must lie in 1..8, then a single-column
write. -/
def setPlayerSlot (st : ServerSt) (p : PbPlayer) : Except SrvErr ServerSt :=
  if p.slot > 8 || p.slot < 1 then .error .InvalidSlotMinMax
  else .ok (updatePlayerRow st p.id (fun q => { q with slot := p.slot }))

/-- The seat-assignment loop of `Server.AllocateGameSlots`: slot `i+1` to
the `i`-th joined player. -/
def setSlotsLoop (st : ServerSt) : List PbPlayer → Int → Except SrvErr ServerSt
  | [], _ => .ok st
  | p :: ps, i =>
    match setPlayerSlot st { p with slot := i } with
    | .error e => .error e
    | .ok st1 => setSlotsLoop st1 ps (i + 1)

/-- `Server.AllocateGameSlots` (server.go lines 870-896): between 2 and 8
players, then assign seats 1..N in join order. -/
def allocateGameSlots (st : ServerSt) (g : PbGame) : Except SrvErr (ServerSt × PbGame) :=
  if g.players.length < 2 ∨ g.players.length > 8 then .error .InvalidPlayerCount
  else
    match setSlotsLoop st g.players 1 with
    | .error e => .error e
    | .ok st1 =>
      match getGame st1 g.id with
      | .error e => .error e
      | .ok out => .ok (st1, out)

/-- gorm `Updates` semantics on the round row: zero-valued fields of the
update struct (empty strings, zero numbers) are not written. -/
def updatesRound (cur u : DbRound) : DbRound :=
  { id := cur.id
    deck := if u.deck = "" then cur.deck else u.deck
    status := if u.status = "" then cur.status else u.status
    flop := if u.flop = "" then cur.flop else u.flop
    turn := if u.turn = "" then cur.turn else u.turn
    river := if u.river = "" then cur.river else u.river
    game := if u.game = 0 then cur.game else u.game
    action := if u.action = 0 then cur.action else u.action
    winningPlayer := if u.winningPlayer = 0 then cur.winningPlayer else u.winningPlayer
    winningHand := if u.winningHand = "" then cur.winningHand else u.winningHand
    winningScore := if u.winningScore = 0 then cur.winningScore else u.winningScore }

/-- `Server.UpdateRoundStatus`: gorm `Updates` of the unmarshalled round,
then a re-read. -/
def updateRoundStatus (st : ServerSt) (r : PbRound) : Except SrvErr (ServerSt × PbRound) :=
  let st1 :=
    if st.round.id = r.id then { st with round := updatesRound st.round (roundProtoUnMarshal r) }
    else st
  match getRound st1 r.id with
  | .error e => .error e
  | .ok out => .ok (st1, out)

/-- `Server.SetAction`: single-column write of `action`, then a re-read. -/
def setAction (st : ServerSt) (r : PbRound) : Except SrvErr (ServerSt × PbRound) :=
  match getRound st r.id with
  | .error e => .error e
  | .ok _ =>
    let st1 :=
      if st.round.id = r.id then { st with round := { st.round with action := r.action } }
      else st
    match getRound st1 r.id with
    | .error e => .error e
    | .ok out => .ok (st1, out)

/-- `Server.UpdateDeck`: single-column write of `deck`, then a re-read. -/
def updateDeck (st : ServerSt) (r : PbRound) : Except SrvErr (ServerSt × PbRound) :=
  match getRound st r.id with
  | .error e => .error e
  | .ok _ =>
    let st1 :=
      if st.round.id = r.id then { st with round := { st.round with deck := r.deck } }
      else st
    match getRound st1 r.id with
    | .error e => .error e
    | .ok out => .ok (st1, out)

/-- `Server.UpdateRoundFlop`. -/
def updateRoundFlop (st : ServerSt) (r : PbRound) : Except SrvErr (ServerSt × PbRound) :=
  let st1 :=
    if st.round.id = r.id then { st with round := { st.round with flop := r.flop } }
    else st
  match getRound st1 r.id with
  | .error e => .error e
  | .ok out => .ok (st1, out)

/-- `Server.UpdateRoundRiver`. -/
def updateRoundRiver (st : ServerSt) (r : PbRound) : Except SrvErr (ServerSt × PbRound) :=
  let st1 :=
    if st.round.id = r.id then { st with round := { st.round with river := r.river } }
    else st
  match getRound st1 r.id with
  | .error e => .error e
  | .ok out => .ok (st1, out)

/-- `Server.UpdateRoundTurn`. -/
def updateRoundTurn (st : ServerSt) (r : PbRound) : Except SrvErr (ServerSt × PbRound) :=
  let st1 :=
    if st.round.id = r.id then { st with round := { st.round with turn := r.turn } }
    else st
  match getRound st1 r.id with
  | .error e => .error e
  | .ok out => .ok (st1, out)

/-- `Server.UpdateGameInRound`: set the flag, gorm-update, re-read. -/
def updateGameInRound (st : ServerSt) (id : Int) : Except SrvErr (ServerSt × PbGame) :=
  match getGame st id with
  | .error e => .error e
  | .ok _ =>
    let st1 :=
      if st.game.id = id then { st with game := { st.game with inRound := true } } else st
    match getGame st1 id with
    | .error e => .error e
    | .ok out => .ok (st1, out)

/-- `Server.UpdateGameStatus`: single-column write of `InRound = false`. -/
def updateGameStatus (st : ServerSt) (id : Int) : Except SrvErr (ServerSt × PbGame) :=
  let st1 :=
    if st.game.id = id then { st with game := { st.game with inRound := false } } else st
  match getGame st1 id with
  | .error e => .error e
  | .ok out => .ok (st1, out)

/-- `Server.CreateDeck`: a freshly shuffled full deck written to the round.
`Shuffle` draws from the process-wide random source; the permuted deck is
therefore supplied as the argument `d`, and theorems hypothesise that it is
a permutation of `deck.New()`. -/
def createDeck (st : ServerSt) (id : Int) (d : Deck) : Except SrvErr (ServerSt × PbRound) :=
  match getRound st id with
  | .error e => .error e
  | .ok _ =>
    let st1 :=
      if st.round.id = id then { st with round := { st.round with deck := d.str } } else st
    match getRound st1 id with
    | .error e => .error e
    | .ok out => .ok (st1, out)

/-- `DealCard` as the engine uses it: a panic (short deck) aborts the
process, modelled as the `GoPanic` error. -/
def dealCardE (d : Deck) : Except SrvErr (Card × Deck) :=
  match DealCard d with
  | none => .error .GoPanic
  | some cd => .ok cd

/-- The hole-card loop of `Server.DealCards`: two cards to each player in
round order. -/
def dealToPlayers : List PbPlayer → Deck → Except SrvErr (List PbPlayer × Deck)
  | [], d => .ok ([], d)
  | p :: ps, d =>
    match dealCardE d with
    | .error e => .error e
    | .ok (c1, d1) =>
      match dealCardE d1 with
      | .error e => .error e
      | .ok (c2, d2) =>
        match dealToPlayers ps d2 with
        | .error e => .error e
        | .ok (rest, d3) => .ok ({ p with cards := c1.str ++ c2.str } :: rest, d3)

/-- `Server.DealCards` (server.go lines 1525-1556): refuse when any player
already holds cards or the deck is not full; burn one, deal two per player,
persist cards (setting `in_hand`) and the remaining deck. -/
def dealCards (st : ServerSt) (r : PbRound) : Except SrvErr (ServerSt × PbRound) :=
  if r.players.any (fun p => p.cards ≠ "") then .error .ExistingCards
  else
    let d := Deck.marshal r.deck
    if d.isFull = false then .error .DeckNotFull
    else
      match dealCardE d with
      | .error e => .error e
      | .ok (_, d1) =>
        match dealToPlayers r.players d1 with
        | .error e => .error e
        | .ok (dealt, d2) =>
          let st1 := updatePlayersCards st dealt
          updateDeck st1 { r with deck := Deck.str d2 }

/-- `Server.DealFlop` (server.go lines 1427-1457): every in-hand player
must hold cards; burn one, deal three to the flop, persist flop then
deck. -/
def dealFlop (st : ServerSt) (r : PbRound) : Except SrvErr (ServerSt × PbRound) :=
  if r.players.any (fun p => p.inHand && p.cards = "") then .error .NoExistingCards
  else
    let d := Deck.marshal r.deck
    match dealCardE d with
    | .error e => .error e
    | .ok (_, d1) =>
    match dealCardE d1 with
    | .error e => .error e
    | .ok (c1, d2) =>
    match dealCardE d2 with
    | .error e => .error e
    | .ok (c2, d3) =>
    match dealCardE d3 with
    | .error e => .error e
    | .ok (c3, d4) =>
    match updateRoundFlop st { r with flop := c1.str ++ c2.str ++ c3.str } with
    | .error e => .error e
    | .ok (st1, r1) => updateDeck st1 { r1 with deck := Deck.str d4 }

/-- `Server.DealRiver`: burn one, deal one to the river (the round is
re-read before dealing). -/
def dealRiver (st : ServerSt) (r : PbRound) : Except SrvErr (ServerSt × PbRound) :=
  if r.players.any (fun p => p.inHand && p.cards = "") then .error .NoExistingCards
  else
    match getRound st r.id with
    | .error e => .error e
    | .ok r0 =>
    let d := Deck.marshal r0.deck
    match dealCardE d with
    | .error e => .error e
    | .ok (_, d1) =>
    match dealCardE d1 with
    | .error e => .error e
    | .ok (c1, d2) =>
    match updateRoundRiver st { r0 with river := c1.str } with
    | .error e => .error e
    | .ok (st1, r1) => updateDeck st1 { r1 with deck := Deck.str d2 }

/-- `Server.DealTurn`: burn one, deal one to the turn. -/
def dealTurn (st : ServerSt) (r : PbRound) : Except SrvErr (ServerSt × PbRound) :=
  if r.players.any (fun p => p.inHand && p.cards = "") then .error .NoExistingCards
  else
    match getRound st r.id with
    | .error e => .error e
    | .ok r0 =>
    let d := Deck.marshal r0.deck
    match dealCardE d with
    | .error e => .error e
    | .ok (_, d1) =>
    match dealCardE d1 with
    | .error e => .error e
    | .ok (c1, d2) =>
    match updateRoundTurn st { r0 with turn := c1.str } with
    | .error e => .error e
    | .ok (st1, r1) => updateDeck st1 { r1 with deck := Deck.str d2 }

/-- `statusIsValidForBet` (server.go lines 2188-2200). -/
def statusIsValidForBet : RoundStatus → Bool
  | .PRE_FLOP => true
  | .FLOP => true
  | .RIVER => true
  | .TURN => true
  | .SHOW => true
  | _ => false

/-- `validateChips` (server.go lines 1952-1961): bet below the required
minimum first, then the bank check. -/
def validateChips (bank bet min : Int) : Except SrvErr Unit :=
  if bet < min then .error .InsufficientBet
  else if bank < bet then .error .InsufficientChips
  else .ok ()

/-- `Server.GetRoundBets`: the bet rows of this game and round, in
insertion order. -/
def getRoundBets (st : ServerSt) (r : PbRound) : List PbBet :=
  (st.bets.filter (fun b => b.game == r.game && b.round == r.id)).map DbBet.protoMarshal

/-- `Server.GetRoundBetsForStatus`: further filtered to the round's current
street. -/
def getRoundBetsForStatus (st : ServerSt) (r : PbRound) : List PbBet :=
  (getRoundBets st r).filter (fun b => b.status == r.status)

/-- Total chips the bets credit to key `k` (the per-player sum, except that
the stored player column actually carries the game id, see
`betProtoUnMarshal`). -/
def sumForKey (bets : List PbBet) (k : Int) : Int :=
  (bets.filter (fun b => b.player == k)).foldl (fun a b => a + b.chips) 0

/-- `Server.GetAmountToCallForPlayer` (server.go lines 1999-2031): group
this street's bets by the player column, take the highest total `B` and
this player's total `P`; the amount to call is `max(0, B - P)`. -/
def amountToCall (st : ServerSt) (r : PbRound) (playerId : Int) : Int :=
  let bets := getRoundBetsForStatus st r
  let keys := (bets.map (fun b => b.player)).dedup
  let bigBet := keys.foldl (fun acc k => max acc (sumForKey bets k)) 0
  let playerBet := sumForKey bets playerId
  if bigBet > playerBet then bigBet - playerBet else 0

/-- `Server.IsBettingOver` (server.go lines 2036-2099): betting on the
street is over when the count of distinct betting keys among live bet types
`{CALL, RAISE, BIG, SMALL}` reaches the count of in-hand players and all
key totals are equal.  (The source fetches the game but never checks the
returned error; the in-hand players are read from the store either way.) -/
def isBettingOver (st : ServerSt) (roundId : Int) : Except SrvErr Bool :=
  match getRound st roundId with
  | .error e => .error e
  | .ok r =>
    let bets := getRoundBetsForStatus st r
    let activePlayers := (st.players.filter (fun p => p.inHand)).length
    let live := bets.filter (fun b =>
      b.type == BetType.CALL || b.type == BetType.RAISE ||
      b.type == BetType.BIG || b.type == BetType.SMALL)
    let keys := (live.map (fun b => b.player)).dedup
    let bigBet := keys.foldl (fun acc k => max acc (sumForKey live k)) 0
    if activePlayers > keys.length then .ok false
    else if keys.any (fun k => decide (sumForKey live k ≠ bigBet)) then .ok false
    else if activePlayers = keys.length then .ok true
    else .ok false

/-- `Server.SetNextOnBet` (server.go lines 985-1020): position the ring on
the action seat, advance to the next in-hand player, persist the new
action. -/
def setNextOnBet (st : ServerSt) (rIn : PbRound) : Except SrvErr (ServerSt × PbRound) :=
  match getRound st rIn.id with
  | .error e => .error e
  | .ok r =>
  match getGame st r.game with
  | .error e => .error e
  | .ok g =>
  let gr := newRing g
  match gr.getPlayerFromSlot rIn.action with
  | .error e => .error (.Ring e)
  | .ok gr1 =>
  match gr1.nextInHand with
  | .error e => .error (.Ring e)
  | .ok nextAction => setAction st { r with action := nextAction.slot }

/-- `rMap` of `Server.SetNextRound`: the fixed street successor map; a Go
map read of a missing key (NOT_STARTED, OVER) yields the zero value
NOT_STARTED. -/
def statusSucc : RoundStatus → RoundStatus
  | .PRE_FLOP => .FLOP
  | .FLOP => .RIVER
  | .RIVER => .TURN
  | .TURN => .SHOW
  | .SHOW => .OVER
  | _ => .NOT_STARTED

/-- The winner pick of `Server.EvaluateHands`.  `deck.PlayerHands` and its
sort order are not among the provided sources; modelled from the spec
§4.E.5: "pick the player with the minimum score as the winner" (first in
round order on a tie). -/
def pickWinner : List PbPlayer → Option PbPlayer
  | [] => none
  | p :: ps => some (ps.foldl (fun best q => if q.score < best.score then q else best) p)

/-- `Server.EvaluateHands` (server.go lines 2137-2186): score every
hand-player on hole cards + flop + river + turn, record the winner's id,
score and 7-card string, zero the action.  Pure: no store write. -/
def evaluateHands (round : PbRound) : Except SrvErr PbRound :=
  if round.players.length < 1 then .error .PlayerDoesntExist
  else
    let scored := round.players.map (fun p =>
      { p with score := evaluateHandString (p.cards ++ round.flop ++ round.river ++ round.turn) })
    match pickWinner scored with
    | none => .error .PlayerDoesntExist
    | some winner =>
      .ok { round with
        players := scored
        winningPlayer := winner.id
        winningScore := winner.score
        winningHand := winner.cards ++ round.flop ++ round.river ++ round.turn
        action := 0 }

/-- `Server.UpdateRoundWinner` (server.go lines 2119-2135): clear the
game's `in_round` flag, then persist the round via `UpdateRoundStatus`
(whose gorm `Updates` skips the zero-valued `action`). -/
def updateRoundWinner (st : ServerSt) (r : PbRound) : Except SrvErr (ServerSt × PbRound) :=
  match getGame st r.game with
  | .error e => .error e
  | .ok g =>
    match updateGameStatus st g.id with
    | .error e => .error e
    | .ok (st1, _) => updateRoundStatus st1 r

/-- `Server.SetNextRound` (server.go lines 1851-1950): require betting to
be over; advance the status by `statusSucc`; reset the action to
`FirstOnBet` (the error is unchecked in the source — a nil player would
yield slot 0); deal the new street's cards, or run the showdown on OVER;
finally, if only one player remains in hand, run the showdown — without
changing the already-advanced status. -/
def setNextRound (st : ServerSt) (inId : Int) : Except SrvErr (ServerSt × PbRound) :=
  match getRound st inId with
  | .error e => .error e
  | .ok r =>
  match isBettingOver st r.id with
  | .error e => .error e
  | .ok over =>
  if over = false then .error .IncompleteBets
  else
  let nextRound := statusSucc r.status
  match updateRoundStatus st { r with status := nextRound } with
  | .error e => .error e
  | .ok (st1, r1) =>
  match getGame st1 r1.game with
  | .error e => .error e
  | .ok g =>
  let ring := newRing g
  let nextUpSlot :=
    match ring.firstOnBet with
    | .ok p => p.slot
    | .error _ => 0
  match setAction st1 { r1 with action := nextUpSlot } with
  | .error e => .error e
  | .ok (st2, r2) =>
  let dealt : Except SrvErr (ServerSt × PbRound) :=
    match nextRound with
    | .FLOP => dealFlop st2 r2
    | .RIVER => dealRiver st2 r2
    | .TURN => dealTurn st2 r2
    | .OVER =>
      match evaluateHands r2 with
      | .error e => .error e
      | .ok r3 => updateRoundWinner st2 r3
    | _ => .ok (st2, r2)
  match dealt with
  | .error e => .error e
  | .ok (st3, r3) =>
  if nextRound = .OVER then .ok (st3, r3)
  else
    let c := (r3.players.filter (fun p => p.inHand)).length
    if c = 1 then
      match evaluateHands r3 with
      | .error e => .error e
      | .ok r4 => updateRoundWinner st3 r4
    else
      match getRound st3 r3.id with
      | .error e => .error e
      | .ok r4 => .ok (st3, r4)

/-- The bet-type legality switch of `Server.MakeBet` (server.go lines
1762-1797), for the types that validate without touching the store:
`CALL` runs `validateChips` then the exact-amount checks, `RAISE` runs
`validateChips` then the strictly-greater check, `NONE` always fails, and
`SMALL`/`BIG` (the blind posts) have no case, hence no validation.
`FOLD` is handled inside `MakeBet` (it updates the player row). -/
def betLegality (t : BetType) (bank bet amt : Int) : Except SrvErr Unit :=
  match t with
  | .CALL =>
    match validateChips bank bet amt with
    | .error e => .error e
    | .ok () =>
      if bet < amt then .error .InsufficientBet
      else if bet ≠ amt then .error .IncorrectBetForBetType
      else .ok ()
  | .RAISE =>
    match validateChips bank bet amt with
    | .error e => .error e
    | .ok () => if bet ≤ amt then .error .WrongBetType else .ok ()
  | .NONE => .error .NoBetTypeSet
  | _ => .ok ()

/-- `Server.MakeBet` (server.go lines 1714-1849): the validation chain,
the type-dependent legality switch (lines 1762-1797), persistence of the
unmarshalled bet row (lines 1807-1811), action advance, chip debit, and
the closure check that may trigger `SetNextRound`. -/
def makeBet (st : ServerSt) (b : PbBet) : Except SrvErr (ServerSt × PbRound) :=
  match getGame st b.game with
  | .error _ => .error .GameDoesntExist
  | .ok game =>
  if game.inRound ≠ true then .error .GameIsNotInRound
  else
  match getRound st b.round with
  | .error e => .error e
  | .ok r =>
  if statusIsValidForBet r.status = false then .error .NoBetsAllowed
  else if r.status ≠ b.status then .error .WrongBetStatus
  else
  match getPlayerSrv st b.player with
  | .error _ => .error .PlayerDoesntExist
  | .ok player0 =>
  if r.action ≠ player0.slot then .error .PlayerNotOnAction
  else if player0.inHand = false then .error .PlayerNotInHand
  else
  let amtToCall := amountToCall st r b.player
  let step : Except SrvErr (ServerSt × PbPlayer) :=
    match b.type with
    | .FOLD =>
      let st1 := updatePlayerNotinHand st player0.id
      match getPlayerSrv st1 player0.id with
      | .error _ => .error .PlayerDoesntExist
      | .ok p1 => .ok (st1, p1)
    | t =>
      match betLegality t player0.chips b.chips amtToCall with
      | .error e => .error e
      | .ok () => .ok (st, player0)
  match step with
  | .error e => .error e
  | .ok (st1, player) =>
  let st2 := { st1 with bets := st1.bets ++ [betProtoUnMarshal b] }
  match getRound st2 b.round with
  | .error e => .error e
  | .ok r2 =>
  match setNextOnBet st2 r2 with
  | .error e => .error e
  | .ok (st3, _) =>
  let st4 := updatePlayersChips st3 [{ player with chips := player.chips - b.chips }]
  match isBettingOver st4 b.round with
  | .error e => .error e
  | .ok over =>
  if over then setNextRound st4 b.round else .ok (st4, r2)

/-- The player-check loop of `ValidatePreGame`: seats must lie in 1..8 and
no player id may repeat (the source's `slotMap` key). -/
def checkSlotsAndIds : List PbPlayer → List Int → Except SrvErr Unit
  | [], _ => .ok ()
  | p :: ps, seen =>
    if p.slot < 1 ∨ p.slot > 8 then .error .InvalidSlotNumber
    else if p.id ∈ seen then .error .InvalidSlotNumber
    else checkSlotsAndIds ps (p.id :: seen)

/-- Ascending insertion (for the `sort.Slice` on the slot list). -/
def insertAscI (x : Int) : List Int → List Int
  | [] => [x]
  | y :: ys => if x < y then x :: y :: ys else y :: insertAscI x ys

/-- Ascending sort of the slot list. -/
def sortAscI : List Int → List Int
  | [] => []
  | x :: xs => insertAscI x (sortAscI xs)

/-- The post-sort loop of `ValidatePreGame`: every entry nonzero and each
strictly above its predecessor (duplicates rejected, gaps accepted). -/
def slotListCheck : List Int → Prop
  | [] => True
  | [v] => v ≠ 0
  | v :: w :: rest => v ≠ 0 ∧ v < w ∧ slotListCheck (w :: rest)

instance slotListCheckDec : (l : List Int) → Decidable (slotListCheck l)
  | [] => isTrue trivial
  | [v] => inferInstanceAs (Decidable (v ≠ 0))
  | v :: w :: rest =>
    haveI := slotListCheckDec (w :: rest)
    inferInstanceAs (Decidable (v ≠ 0 ∧ v < w ∧ slotListCheck (w :: rest)))

/-- `Server.ValidatePreGame` (server.go lines 1071-1129). -/
def validatePreGame (g : PbGame) : Except SrvErr PbGame :=
  if g.inRound then .error .GameInRound
  else
    match checkSlotsAndIds g.players [] with
    | .error e => .error e
    | .ok () =>
      if ¬ slotListCheck (sortAscI (g.players.map (fun p => p.slot))) then
        .error .InvalidSlotNumber
      else if g.dealer = 0 then .error .InvalidButtonAllocation
      else if g.min < 1 then .error .NoBetSet
      else .ok g

/-- `Server.NextDealer` (server.go lines 1022-1064): the ring of the
*argument* game, moved to the small blind; that player's seat becomes the
new dealer (gorm `Updates` skipping zero values — an unchecked
`MarshalValue` failure would leave the dealer unchanged). -/
def nextDealer (st : ServerSt) (g : PbGame) : Except SrvErr (ServerSt × PbGame) := do
  if g.name = "" then throw .EmptyGameName
  let _ ← getGame st g.id
  let ring := newRing g
  let r1 ← (ring.currentSmallBlind).mapError SrvErr.Ring
  let newDealerSlot :=
    match r1.marshalValue with
    | .ok p => p.slot
    | .error _ => 0
  let st1 :=
    if st.game.id = g.id then
      { st with game :=
        { st.game with
          min := if g.min = 0 then st.game.min else g.min
          dealer := if newDealerSlot = 0 then st.game.dealer else newDealerSlot } }
    else st
  let out ← getGame st1 g.id
  .ok (st1, out)

/-- `Server.StartRound` (server.go lines 1338-1425): fresh shuffled deck
(`d`), hole cards, PRE_FLOP, table in round, seat allocation, ring, blinds
posted through `MakeBet` (small then big), action initially on the small
blind. -/
def startRound (st : ServerSt) (inId : Int) (d : Deck) : Except SrvErr (ServerSt × PbRound) :=
  match createDeck st inId d with
  | .error e => .error e
  | .ok (st1, r1) =>
  match dealCards st1 r1 with
  | .error e => .error e
  | .ok (st2, r2) =>
  match updateRoundStatus st2 { r2 with status := .PRE_FLOP } with
  | .error e => .error e
  | .ok (st3, r3) =>
  match getGame st3 r3.game with
  | .error e => .error e
  | .ok game0 =>
  match updateGameInRound st3 game0.id with
  | .error e => .error e
  | .ok (st4, game1) =>
  match allocateGameSlots st4 game1 with
  | .error e => .error e
  | .ok (st5, game) =>
  let ring := newRing game
  match ring.getBigAndSmallBlind with
  | .error e => .error (.Ring e)
  | .ok (big, small, _) =>
  match setAction st5 { r3 with status := .PRE_FLOP, action := small.slot } with
  | .error e => .error e
  | .ok (st6, r6) =>
  let smallBet : PbBet :=
    { id := 0, status := r6.status, round := r6.id, game := r6.game
      player := small.id, chips := game.min, type := .SMALL }
  let bigBet : PbBet :=
    { id := 0, status := r6.status, round := r6.id, game := r6.game
      player := big.id, chips := game.min * 2, type := .BIG }
  match makeBet st6 smallBet with
  | .error e => .error e
  | .ok (st7, _) =>
  match makeBet st7 bigBet with
  | .error e => .error e
  | .ok (st8, _) =>
  match getRound st8 r6.id with
  | .error e => .error e
  | .ok r8 => updateRoundStatus st8 r8

/-! ## Concrete store states used by the scenario theorems -/

/-- A fresh three-seat table: players 1, 2, 3 with 1000 chips each, no
cards, not yet seated; dealer seat 1, small blind 10. -/
def tbl3 : ServerSt :=
  { players :=
      [{ id := 1, name := "a", chips := 1000, slot := 0, cards := "", inHand := false },
       { id := 2, name := "b", chips := 1000, slot := 0, cards := "", inHand := false },
       { id := 3, name := "c", chips := 1000, slot := 0, cards := "", inHand := false }]
    game := { id := 10, name := "g", dealer := 1, min := 10, inRound := false }
    round := { id := 20, deck := "", status := "NOT_STARTED", flop := "", turn := "", river := ""
               game := 10, action := 0, winningPlayer := 0, winningHand := "", winningScore := 0 }
    bets := [] }

/-- A two-seat table mid PRE_FLOP: blinds already posted (their rows carry
the game id 10 in the player column exactly as `betProtoUnMarshal` stores
them), action on seat 1, nine cards left in the deck. -/
def headsUpSt : ServerSt :=
  { players :=
      [{ id := 1, name := "a", chips := 990, slot := 1, cards := "2h2d", inHand := true },
       { id := 2, name := "b", chips := 980, slot := 2, cards := "2c2s", inHand := true }]
    game := { id := 10, name := "g", dealer := 1, min := 10, inRound := true }
    round := { id := 20, deck := "3h4h5h6h7h8h9hThJh", status := "PRE_FLOP", flop := ""
               turn := "", river := "", game := 10, action := 1
               winningPlayer := 0, winningHand := "", winningScore := 0 }
    bets :=
      [{ status := "PRE_FLOP", round := 20, game := 10, player := 10, chips := 10, type := "SMALL" },
       { status := "PRE_FLOP", round := 20, game := 10, player := 10, chips := 20, type := "BIG" }] }

/-- Seat-1 player folds on `headsUpSt`. -/
def foldBet : PbBet :=
  { id := 0, status := .PRE_FLOP, round := 20, game := 10, player := 1, chips := 0, type := .FOLD }

/-- A table mid PRE_FLOP with no bets yet: game id 7, players 5 and 6,
action on seat 1. -/
def traceSt : ServerSt :=
  { players :=
      [{ id := 5, name := "a", chips := 1000, slot := 1, cards := "AhAd", inHand := true },
       { id := 6, name := "b", chips := 1000, slot := 2, cards := "KhKd", inHand := true }]
    game := { id := 7, name := "g", dealer := 1, min := 10, inRound := true }
    round := { id := 8, deck := "3h4h5h6h7h8h9hThJh", status := "PRE_FLOP", flop := ""
               turn := "", river := "", game := 7, action := 1
               winningPlayer := 0, winningHand := "", winningScore := 0 }
    bets := [] }

/-- A zero-chip CALL by player 5 (amount to call is 0: no bets yet), legal
on `traceSt`. -/
def traceBet : PbBet :=
  { id := 0, status := .PRE_FLOP, round := 8, game := 7, player := 5, chips := 0, type := .CALL }

/-- A table whose two seated players occupy seats 1 and 3 — a gap, not the
contiguous 1..2. -/
def gGap : PbGame :=
  { id := 1, name := "g", dealer := 1, min := 1, inRound := false
    players :=
      [{ id := 1, name := "a", chips := 100, slot := 1, inHand := false, cards := "", score := 0 },
       { id := 2, name := "b", chips := 100, slot := 3, inHand := false, cards := "", score := 0 }] }

/-- The store state behind `gGap`: the same table row, not in a round. -/
def gapSt : ServerSt :=
  { players :=
      [{ id := 1, name := "a", chips := 100, slot := 1, cards := "", inHand := false },
       { id := 2, name := "b", chips := 100, slot := 3, cards := "", inHand := false }]
    game := { id := 1, name := "g", dealer := 1, min := 1, inRound := false }
    round := { id := 2, deck := "", status := "NOT_STARTED", flop := "", turn := "", river := ""
               game := 1, action := 0, winningPlayer := 0, winningHand := "", winningScore := 0 }
    bets := [] }

/-- A two-seat table mid PRE_FLOP whose street bets are balanced: each
bet row carries the bettor's id in the player column (rows as the schema
intends them — the store is arbitrary even where `betProtoUnMarshal`
could not have produced it), both CALL 20, so `IsBettingOver` reports
true. -/
def c7St : ServerSt :=
  { players :=
      [{ id := 1, name := "a", chips := 980, slot := 1, cards := "2h2d", inHand := true },
       { id := 2, name := "b", chips := 980, slot := 2, cards := "2c2s", inHand := true }]
    game := { id := 10, name := "g", dealer := 1, min := 10, inRound := true }
    round := { id := 20, deck := "3h4h5h6h7h8h9hThJh", status := "PRE_FLOP", flop := ""
               turn := "", river := "", game := 10, action := 2
               winningPlayer := 0, winningHand := "", winningScore := 0 }
    bets :=
      [{ status := "PRE_FLOP", round := 20, game := 10, player := 1, chips := 20, type := "CALL" },
       { status := "PRE_FLOP", round := 20, game := 10, player := 2, chips := 20, type := "CALL" }] }

/-- `tbl3` with the three players already seated at slots 1, 2, 3 — a
table that passes `ValidatePreGame`. -/
def tbl3s : ServerSt :=
  { players :=
      [{ id := 1, name := "a", chips := 1000, slot := 1, cards := "", inHand := false },
       { id := 2, name := "b", chips := 1000, slot := 2, cards := "", inHand := false },
       { id := 3, name := "c", chips := 1000, slot := 3, cards := "", inHand := false }]
    game := { id := 10, name := "g", dealer := 1, min := 10, inRound := false }
    round := { id := 20, deck := "", status := "NOT_STARTED", flop := "", turn := "", river := ""
               game := 10, action := 0, winningPlayer := 0, winningHand := "", winningScore := 0 }
    bets := [] }

/-! # Theorems -/

/-! ## Claim C8 — DealCard on the empty and non-empty deck -/

/-- Claim C8 counterexample: on the empty deck the source `DealCard`
evaluates `d[len(d)-1]`, a Go index-out-of-range runtime panic that aborts
the process (modelled by `none`); it does not return the `DeckExhausted`
error the claim requires — `DealCardSpec`, built from the claim's words,
shows what was demanded instead, and no such error value exists anywhere in
the sources, whose `DealCard` has no error channel in its type. -/
theorem dealCard_empty_no_error :
    DealCard [] = none ∧ DealCardSpec [] = .error .DeckExhausted :=
  ⟨rfl, rfl⟩

/-- Claim C8 (amended): for every non-empty deck `DealCard` removes and
returns the last card, leaving a deck one card shorter; on the empty deck
it panics with a Go index-out-of-range error rather than returning a
`DeckExhausted` error value. -/
theorem dealCard_nonempty_spec (d : Deck) (h : d ≠ []) :
    DealCard d = some (d.getLast h, d.dropLast) ∧
    d.dropLast.length = d.length - 1 ∧ DealCard [] = none := by
  refine ⟨?_, d.length_dropLast, rfl⟩
  unfold DealCard
  rw [List.getLast?_eq_getLast d h]

/-- Witness for `dealCard_nonempty_spec` at the one-card deck `[As]`. -/
theorem dealCard_nonempty_spec_witness :
    DealCard [({ type := "A", suit := "s" } : Card)] =
      some ({ type := "A", suit := "s" }, []) :=
  (dealCard_nonempty_spec [{ type := "A", suit := "s" }] (by decide)).1

/-! ## Claim C1 — the persisted bet row's player column -/

/-- Claim C1: `Bet.ProtoUnMarshal` assigns `b.Player = bet.GetGame()`, so
the bet row persisted by an accepted `MakeBet` carries the *game* id in its
player column, not the id of the player who placed the bet: a legal call by
player 5 in game 7 is stored with player column 7.  The per-player grouping
of `GetAmountToCallForPlayer` therefore keys every row under the one game
id rather than chipping by the betting player. -/
theorem makeBet_persists_game_id_in_player_column :
    traceBet.player = 5 ∧ traceBet.game = 7 ∧
    (betProtoUnMarshal traceBet).player = 7 ∧
    (makeBet traceSt traceBet).map (fun x => x.1.bets.map (fun bb => bb.player)) = .ok [7] := by
  decide

/-! ## Claim C2 — a lone live player does not end the hand -/

/-- Claim C2: on `headsUpSt` seat 1 folds, leaving exactly one player in
hand; the engine then runs `SetNextRound`, which advances PRE_FLOP by the
regular successor map to FLOP — not to OVER — and deals three flop cards
(six encoded characters) before noticing the lone live player, directly
contradicting the claimed jump to OVER with no further community cards. -/
theorem makeBet_lone_live_player_still_deals :
    ((headsUpSt.players.filter (fun p => p.inHand)).length = 2) ∧
    (makeBet headsUpSt foldBet).map
        (fun x => ((x.1.players.filter (fun p => p.inHand)).length,
                   x.1.round.status, x.1.round.flop.length))
      = .ok (1, "FLOP", 6) ∧
    RoundStatus.OVER.goString = "OVER" := by
  decide

/-! ## Claim C3 — what ValidatePreGame actually enforces -/

/-- Claim C3 counterexample: the two-player table `gGap` seats its players
at 1 and 3 — not the contiguous sequence 1..2 — yet `ValidatePreGame`
accepts it, refuting "succeeds only for tables whose players' seats form
exactly the contiguous sequence 1..N". -/
theorem validatePreGame_accepts_gap :
    validatePreGame gGap = .ok gGap ∧
    gGap.players.length = 2 ∧
    gGap.players.map (fun p => p.slot) = [1, 3] ∧
    sortAscI (gGap.players.map (fun p => p.slot)) ≠ [1, 2] := by
  decide

/-- Ascending insertion permutes. -/
theorem insertAscI_perm (x : Int) (l : List Int) : (insertAscI x l).Perm (x :: l) := by
  induction l with
  | nil => simp [insertAscI]
  | cons y ys ih =>
    by_cases h : x < y
    · simp [insertAscI, h]
    · simp only [insertAscI, if_neg h]
      exact (ih.cons y).trans (List.Perm.swap x y ys)

/-- The slot sort permutes. -/
theorem sortAscI_perm (l : List Int) : (sortAscI l).Perm l := by
  induction l with
  | nil => exact List.Perm.refl _
  | cons x xs ih => exact (insertAscI_perm x (sortAscI xs)).trans (ih.cons x)

/-- Ascending insertion preserves sortedness. -/
theorem insertAscI_sorted {x : Int} {l : List Int} (h : l.Sorted (· ≤ ·)) :
    (insertAscI x l).Sorted (· ≤ ·) := by
  induction l with
  | nil => simp [insertAscI]
  | cons y ys ih =>
    rw [List.sorted_cons] at h
    by_cases hxy : x < y
    · simp only [insertAscI, if_pos hxy, List.sorted_cons]
      refine ⟨?_, h.1, h.2⟩
      intro b hb
      rcases List.mem_cons.mp hb with hb | hb
      · omega
      · have := h.1 b hb; omega
    · simp only [insertAscI, if_neg hxy, List.sorted_cons]
      refine ⟨?_, ih h.2⟩
      intro b hb
      have := (insertAscI_perm x ys).mem_iff.mp hb
      rcases List.mem_cons.mp this with hb' | hb'
      · omega
      · exact h.1 b hb'

/-- The slot sort sorts. -/
theorem sortAscI_sorted (l : List Int) : (sortAscI l).Sorted (· ≤ ·) := by
  induction l with
  | nil => simp [sortAscI]
  | cons x xs ih => exact insertAscI_sorted ih

/-- The post-sort loop accepts exactly the strictly increasing zero-free
lists. -/
theorem slotListCheck_iff : ∀ l : List Int,
    slotListCheck l ↔ l.Chain' (· < ·) ∧ ∀ x ∈ l, x ≠ 0
  | [] => by simp [slotListCheck]
  | [v] => by simp [slotListCheck]
  | v :: w :: rest => by
    have ih := slotListCheck_iff (w :: rest)
    simp only [slotListCheck, ih, List.chain'_cons, List.mem_cons]
    constructor
    · rintro ⟨h0, hvw, hch, hall⟩
      refine ⟨⟨hvw, hch⟩, ?_⟩
      rintro x (rfl | hx)
      · exact h0
      · exact hall x hx
    · rintro ⟨⟨hvw, hch⟩, hall⟩
      exact ⟨hall v (Or.inl rfl), hvw, hch, fun x hx => hall x (Or.inr hx)⟩

/-- The player loop of `ValidatePreGame` accepts exactly in-range seats
with pairwise distinct player ids not colliding with the seen set. -/
theorem checkSlotsAndIds_ok_iff : ∀ (ps : List PbPlayer) (seen : List Int),
    checkSlotsAndIds ps seen = .ok () ↔
      ((∀ p ∈ ps, 1 ≤ p.slot ∧ p.slot ≤ 8) ∧ (ps.map (fun p => p.id)).Nodup ∧
       ∀ p ∈ ps, p.id ∉ seen)
  | [], seen => by simp [checkSlotsAndIds]
  | p :: ps, seen => by
    have ih := checkSlotsAndIds_ok_iff ps (p.id :: seen)
    simp only [checkSlotsAndIds]
    by_cases h1 : p.slot < 1 ∨ p.slot > 8
    · rw [if_pos h1]
      constructor
      · intro h; cases h
      · rintro ⟨hr, -⟩
        have := hr p (List.mem_cons_self p ps)
        omega
    · rw [if_neg h1]
      by_cases h2 : p.id ∈ seen
      · rw [if_pos h2]
        constructor
        · intro h; cases h
        · rintro ⟨-, -, hs⟩
          exact absurd h2 (hs p (List.mem_cons_self p ps))
      · rw [if_neg h2, ih]
        constructor
        · rintro ⟨hr, hnd, hs⟩
          refine ⟨?_, ?_, ?_⟩
          · intro q hq
            rcases List.mem_cons.mp hq with rfl | hq'
            · omega
            · exact hr q hq'
          · simp only [List.map_cons, List.nodup_cons, List.mem_map]
            refine ⟨?_, hnd⟩
            rintro ⟨q, hq, hqid⟩
            exact (hs q hq) (by simp [hqid])
          · intro q hq
            rcases List.mem_cons.mp hq with rfl | hq'
            · exact h2
            · exact fun hmem => (hs q hq') (List.mem_cons_of_mem _ hmem)
        · rintro ⟨hr, hnd, hs⟩
          simp only [List.map_cons, List.nodup_cons, List.mem_map] at hnd
          refine ⟨fun q hq => hr q (List.mem_cons_of_mem _ hq), hnd.2, ?_⟩
          intro q hq
          simp only [List.mem_cons]
          rintro (hqp | hqseen)
          · exact hnd.1 ⟨q, hq, hqp⟩
          · exact (hs q (List.mem_cons_of_mem _ hq)) hqseen

/-- Claim C3 (amended): `ValidatePreGame` succeeds exactly when the table
is not in a round, every seat lies in 1..8, the player ids are pairwise
distinct, the seats are pairwise distinct, the dealer seat is set and the
small blind is at least 1 — it enforces *no* lower or upper bound on the
number of seated players and *no* contiguity of the seat sequence (gaps
such as seats {1,3} pass). -/
theorem validatePreGame_ok_iff (g : PbGame) :
    (validatePreGame g).isOk = true ↔
      (g.inRound = false ∧ (∀ p ∈ g.players, 1 ≤ p.slot ∧ p.slot ≤ 8) ∧
       (g.players.map (fun p => p.id)).Nodup ∧ (g.players.map (fun p => p.slot)).Nodup ∧
       g.dealer ≠ 0 ∧ 1 ≤ g.min) := by
  unfold validatePreGame
  by_cases hir : g.inRound
  · simp [hir, Except.isOk, Except.toBool]
  · rw [if_neg hir]
    have hseen : ∀ p ∈ g.players, p.id ∉ ([] : List Int) := by simp
    cases hc : checkSlotsAndIds g.players [] with
    | error e =>
      simp only [Except.isOk, Except.toBool, Bool.false_eq_true, false_iff]
      rintro ⟨-, hr, hnd, -⟩
      have hok : checkSlotsAndIds g.players [] = .ok () :=
        (checkSlotsAndIds_ok_iff g.players []).mpr ⟨hr, hnd, hseen⟩
      rw [hok] at hc
      cases hc
    | ok u =>
      cases u
      rw [checkSlotsAndIds_ok_iff] at hc
      obtain ⟨hr, hndid, -⟩ := hc
      have hperm := sortAscI_perm (g.players.map (fun p => p.slot))
      have hsorted := sortAscI_sorted (g.players.map (fun p => p.slot))
      have hzero : ∀ x ∈ sortAscI (g.players.map (fun p => p.slot)), x ≠ 0 := by
        intro x hx
        have hx' := hperm.mem_iff.mp hx
        obtain ⟨q, hq, rfl⟩ := List.mem_map.mp hx'
        have := hr q hq
        omega
      have hkey : slotListCheck (sortAscI (g.players.map (fun p => p.slot))) ↔
          (g.players.map (fun p => p.slot)).Nodup := by
        rw [slotListCheck_iff]
        constructor
        · rintro ⟨hch, -⟩
          have hpw : (sortAscI (g.players.map (fun p => p.slot))).Pairwise (· < ·) :=
            List.chain'_iff_pairwise.mp hch
          exact hperm.nodup_iff.mp (hpw.imp ne_of_lt)
        · intro hnd
          refine ⟨?_, hzero⟩
          rw [List.chain'_iff_pairwise]
          have hnd' := hperm.nodup_iff.mpr hnd
          exact (hsorted.and hnd').imp (fun h => lt_of_le_of_ne h.1 h.2)
      by_cases hslots : slotListCheck (sortAscI (g.players.map (fun p => p.slot)))
      · rw [if_neg (by simpa using hslots)]
        by_cases hd : g.dealer = 0
        · simp only [if_pos hd, Except.isOk, Except.toBool, Bool.false_eq_true, false_iff]
          rintro ⟨-, -, -, -, hd', -⟩
          exact hd' hd
        · rw [if_neg hd]
          by_cases hm : g.min < 1
          · simp only [if_pos hm, Except.isOk, Except.toBool, Bool.false_eq_true, false_iff]
            rintro ⟨-, -, -, -, -, hm'⟩
            omega
          · rw [if_neg hm]
            simp only [Except.isOk, Except.toBool, true_iff]
            exact ⟨by simpa using hir, hr, hndid, hkey.mp hslots, hd, by omega⟩
      · rw [if_pos (by simpa using hslots)]
        simp only [Except.isOk, Except.toBool, Bool.false_eq_true, false_iff]
        rintro ⟨-, -, -, hnd, -, -⟩
        exact hslots (hkey.mpr hnd)

/-! ## Ring lemmas: the cyclic dealer scan -/

/-- The cyclic scan finds the unique satisfying index from any starting
cursor. -/
theorem findCyclic_some (n start j : Nat) (p : Nat → Bool)
    (hj : j < n) (hpj : p j = true)
    (huniq : ∀ k, k < n → p k = true → k = j) :
    findCyclic n start p = some j := by
  have hn : 0 < n := Nat.pos_of_ne_zero (by omega)
  unfold findCyclic
  cases hfs : (List.range n).findSome?
      (fun i => let m := (start + i) % n; if p m then some m else none) with
  | none =>
    exfalso
    have hall := List.findSome?_eq_none_iff.mp hfs
    have hi0lt : (j + n - start % n) % n < n := Nat.mod_lt _ hn
    have h0 := hall _ (List.mem_range.mpr hi0lt)
    have hsm : start % n < n := Nat.mod_lt _ hn
    have hdm := Nat.div_add_mod start n
    have e1 : start + (j + n - start % n) = n * (start / n) + (j + n) := by omega
    have hkey : (start + (j + n - start % n) % n) % n = j := by
      rw [Nat.add_mod_mod, e1, Nat.mul_add_mod, Nat.add_mod_right, Nat.mod_eq_of_lt hj]
    dsimp at h0
    rw [hkey, hpj] at h0
    cases h0
  | some k =>
    obtain ⟨a, _, hfa⟩ := List.exists_of_findSome?_eq_some hfs
    dsimp at hfa
    by_cases hpk : p ((start + a) % n) = true
    · rw [if_pos hpk] at hfa
      have hk := Option.some.inj hfa
      have hlt : (start + a) % n < n := Nat.mod_lt _ hn
      have := huniq _ hlt hpk
      rw [← hk, this]
    · rw [if_neg hpk] at hfa
      cases hfa

/-- Distinct slots give at most one ring position per slot value. -/
theorem slot_index_unique {l : List PbPlayer}
    (hnd : (l.map (fun p => p.slot)).Nodup)
    {j k : Nat} {pj pk : PbPlayer}
    (hgj : l.get? j = some pj) (hgk : l.get? k = some pk)
    (hs : pj.slot = pk.slot) : j = k := by
  have hjl : j < l.length := by
    by_contra h
    rw [List.get?_eq_none.mpr (by omega)] at hgj
    cases hgj
  have hkl : k < l.length := by
    by_contra h
    rw [List.get?_eq_none.mpr (by omega)] at hgk
    cases hgk
  have hj' : l.get ⟨j, hjl⟩ = pj := by
    have := List.get?_eq_get hjl
    rw [this] at hgj
    exact Option.some.inj hgj
  have hk' : l.get ⟨k, hkl⟩ = pk := by
    have := List.get?_eq_get hkl
    rw [this] at hgk
    exact Option.some.inj hgk
  have hmap : (l.map (fun p => p.slot)).get ⟨j, by simpa using hjl⟩ =
      (l.map (fun p => p.slot)).get ⟨k, by simpa using hkl⟩ := by
    simp only [List.get_map]
    rw [hj', hk', hs]
  have := (List.Nodup.get_inj_iff hnd).mp hmap
  simpa using this

/-- `CurrentDealer` positions the cursor on the unique seat matching the
game's dealer, from any starting cursor. -/
theorem currentDealer_eq (r : GameRing) (j : Nat) (pj : PbPlayer)
    (hget : r.players.get? j = some pj)
    (hslot : pj.slot = r.dealer)
    (hnd : (r.players.map (fun p => p.slot)).Nodup) :
    r.currentDealer = .ok { r with cursor := j } := by
  have hjl : j < r.len := by
    by_contra h
    rw [List.get?_eq_none.mpr (by unfold GameRing.len at h; omega)] at hget
    cases hget
  unfold GameRing.currentDealer
  rw [findCyclic_some r.len r.cursor j _ hjl ?_ ?_]
  · rw [hget]
    simp [hslot]
  · intro k hk hpk
    cases hgk : r.players.get? k with
    | none =>
      rw [hgk] at hpk
      cases hpk
    | some pk =>
      rw [hgk] at hpk
      simp only [beq_iff_eq] at hpk
      exact slot_index_unique hnd hgk hget (by rw [hpk, hslot])

/-- `CurrentSmallBlind` lands on the dealer's seat heads-up, one position
after it otherwise. -/
theorem currentSmallBlind_eq (r : GameRing) (j : Nat) (pj : PbPlayer)
    (hget : r.players.get? j = some pj)
    (hslot : pj.slot = r.dealer)
    (hnd : (r.players.map (fun p => p.slot)).Nodup) :
    r.currentSmallBlind =
      .ok (if r.len = 2 then { r with cursor := j }
           else { r with cursor := (j + 1) % r.len }) := by
  unfold GameRing.currentSmallBlind GameRing.headsUp
  rw [currentDealer_eq r j pj hget hslot hnd]
  by_cases h2 : r.len = 2
  · simp [h2]
  · simp only [h2, if_false, beq_iff_eq, if_neg h2, Except.map_ok]
    rfl

/-- `CurrentBigBlind` lands one position after the dealer heads-up, one
position after the small blind otherwise. -/
theorem currentBigBlind_eq (r : GameRing) (j : Nat) (pj : PbPlayer)
    (hget : r.players.get? j = some pj)
    (hslot : pj.slot = r.dealer)
    (hnd : (r.players.map (fun p => p.slot)).Nodup) :
    r.currentBigBlind =
      .ok (if r.len = 2 then { r with cursor := (j + 1) % r.len }
           else { r with cursor := (j + 2) % r.len }) := by
  unfold GameRing.currentBigBlind GameRing.headsUp
  by_cases h2 : r.len = 2
  · rw [currentDealer_eq r j pj hget hslot hnd,
      if_pos (show (r.len == 2) = true by simpa using h2), if_pos h2]
    rfl
  · rw [currentSmallBlind_eq r j pj hget hslot hnd,
      if_neg (show ¬(r.len == 2) = true by simpa using h2), if_neg h2, if_neg h2]
    show Except.ok (GameRing.nextR { r with cursor := (j + 1) % r.len }) = _
    simp only [GameRing.nextR, GameRing.len]
    rw [Nat.mod_add_mod]

/-! ## Claim C6 — small- and big-blind seat positions -/

/-- Claim C6: for a ring built from a two-player table the small blind is
the dealer's own seat and the big blind the other seat; for three or more
players the small blind sits one ring position after the dealer and the big
blind one ring position after the small blind.  `j` is the dealer's ring
position. -/
theorem ring_blind_positions (g : PbGame) (j : Nat) (pj : PbPlayer)
    (hget : (newRing g).players.get? j = some pj)
    (hslot : pj.slot = g.dealer)
    (hnd : ((newRing g).players.map (fun p => p.slot)).Nodup) :
    ((newRing g).len = 2 →
      ∃ rs pbS rb pbB,
        (newRing g).currentSmallBlind = .ok rs ∧ rs.marshalValue = .ok pbS ∧
        pbS.slot = g.dealer ∧
        (newRing g).currentBigBlind = .ok rb ∧ rb.marshalValue = .ok pbB ∧
        pbB.slot ≠ g.dealer) ∧
    (3 ≤ (newRing g).len →
      ∃ rs rb,
        (newRing g).currentSmallBlind = .ok rs ∧ rs.cursor = (j + 1) % (newRing g).len ∧
        (newRing g).currentBigBlind = .ok rb ∧ rb.cursor = (rs.cursor + 1) % (newRing g).len) := by
  have hdealer : (newRing g).dealer = g.dealer := rfl
  constructor
  · intro h2
    have hjl : j < (newRing g).len := by
      by_contra h
      rw [List.get?_eq_none.mpr (by unfold GameRing.len at h; omega)] at hget
      cases hget
    have hbl : (j + 1) % (newRing g).len < (newRing g).len := Nat.mod_lt _ (by omega)
    obtain ⟨pk, hgetk⟩ : ∃ pk, (newRing g).players.get? ((j + 1) % (newRing g).len) = some pk := by
      refine ⟨_, List.get?_eq_get (by unfold GameRing.len at hbl; exact hbl)⟩
    refine ⟨_, pj, _, pk, currentSmallBlind_eq _ j pj hget (hslot.trans hdealer.symm) hnd, ?_,
      hslot, currentBigBlind_eq _ j pj hget (hslot.trans hdealer.symm) hnd, ?_, ?_⟩
    · rw [if_pos h2]
      unfold GameRing.marshalValue GameRing.value?
      rw [hget]
    · rw [if_pos h2]
      unfold GameRing.marshalValue GameRing.value?
      rw [hgetk]
    · intro hcon
      have hne : (j + 1) % (newRing g).len ≠ j := by
        rw [h2] at hjl ⊢
        interval_cases j <;> omega
      exact hne (slot_index_unique hnd hgetk hget (hcon.trans hslot.symm))
  · intro h3
    have h2 : (newRing g).len ≠ 2 := by omega
    refine ⟨_, _, currentSmallBlind_eq _ j pj hget (hslot.trans hdealer.symm) hnd, ?_,
      currentBigBlind_eq _ j pj hget (hslot.trans hdealer.symm) hnd, ?_⟩
    · rw [if_neg h2]
    · rw [if_neg h2]
      simp only [if_neg h2]
      rw [Nat.mod_add_mod]

/-- Witness for `ring_blind_positions` on the two-player table `gGap`
(dealer at ring position 0). -/
theorem ring_blind_positions_witness :
    ((newRing gGap).currentSmallBlind).isOk = true := by
  obtain ⟨rs, pbS, rb, pbB, h1, -⟩ :=
    (ring_blind_positions gGap 0
      { id := 1, name := "a", chips := 100, slot := 1, inHand := false, cards := "", score := 0 }
      (by decide) (by decide) (by decide)).1 (by decide)
  rw [h1]
  rfl

/-! ## Claim C10 — heads-up NextDealer never rotates the button -/

/-- Claim C10: on a two-player table whose stored dealer seat matches the
request's dealer seat, `NextDealer` writes the small blind's seat — which
heads-up is the dealer's own seat — so the button does not move. -/
theorem nextDealer_headsUp_fixed (st : ServerSt) (g : PbGame) (j : Nat) (pj : PbPlayer)
    (hname : g.name ≠ "")
    (hid : g.id = st.game.id)
    (hgd : g.dealer = st.game.dealer)
    (hd0 : g.dealer ≠ 0)
    (h2 : (newRing g).len = 2)
    (hget : (newRing g).players.get? j = some pj)
    (hslot : pj.slot = g.dealer)
    (hnd : ((newRing g).players.map (fun p => p.slot)).Nodup) :
    ∃ stOut gOut, nextDealer st g = .ok (stOut, gOut) ∧
      stOut.game.dealer = st.game.dealer ∧ gOut.dealer = st.game.dealer := by
  have hsb : (newRing g).currentSmallBlind = .ok { newRing g with cursor := j } := by
    rw [currentSmallBlind_eq _ j pj hget hslot hnd, if_pos h2]
  have hmar : ({ newRing g with cursor := j } : GameRing).marshalValue = .ok pj := by
    unfold GameRing.marshalValue GameRing.value?
    rw [hget]
  have hdne : ¬(pj.slot = 0) := by
    rw [hslot]; omega
  simp only [nextDealer, if_neg hname, bind, Except.bind, pure, Except.pure,
    Except.mapError, getGame, hid, if_pos rfl, hsb, hmar, if_neg hdne, hslot, hgd]
  simp only [if_true, ite_self]
  exact ⟨_, _, rfl, rfl, rfl⟩

/-- Witness for `nextDealer_headsUp_fixed`: on the two-player table of
`gapSt` (dealer seat 1) the dealer seat survives `NextDealer`. -/
theorem nextDealer_headsUp_fixed_witness :
    (nextDealer gapSt gGap).map (fun x => x.1.game.dealer) = .ok 1 := by
  obtain ⟨stOut, gOut, h1, h2, -⟩ :=
    nextDealer_headsUp_fixed gapSt gGap 0
      { id := 1, name := "a", chips := 100, slot := 1, inHand := false, cards := "", score := 0 }
      (by decide) (by decide) (by decide) (by decide) (by decide) (by decide) (by decide)
      (by decide)
  rw [h1]
  show Except.ok stOut.game.dealer = Except.ok 1
  rw [h2]
  rfl

/-! ## Claim C5 — MakeBet's CALL / RAISE / NONE legality -/

/-- The exact acceptance and error behaviour of the bet-type switch:
`validateChips` checks bet-below-amount first, then the bank. -/
theorem betLegality_char (bank bet amt : Int) :
    (betLegality .CALL bank bet amt = .ok () ↔ bet = amt ∧ bet ≤ bank) ∧
    (bet < amt → betLegality .CALL bank bet amt = .error .InsufficientBet) ∧
    (amt ≤ bet → bank < bet → betLegality .CALL bank bet amt = .error .InsufficientChips) ∧
    (amt ≤ bet → bet ≤ bank → bet ≠ amt →
      betLegality .CALL bank bet amt = .error .IncorrectBetForBetType) ∧
    (betLegality .RAISE bank bet amt = .ok () ↔ amt < bet ∧ bet ≤ bank) ∧
    ((bet < amt → betLegality .RAISE bank bet amt = .error .InsufficientBet) ∧
     (amt ≤ bet → bank < bet → betLegality .RAISE bank bet amt = .error .InsufficientChips) ∧
     (bet = amt → bet ≤ bank → betLegality .RAISE bank bet amt = .error .WrongBetType)) ∧
    betLegality .NONE bank bet amt = .error .NoBetTypeSet := by
  unfold betLegality validateChips
  by_cases h1 : bet < amt
  · rw [if_pos h1]
    refine ⟨by simp; omega, fun _ => rfl, by omega, by omega, by simp; omega,
      ⟨fun _ => rfl, by omega, by omega⟩, rfl⟩
  · rw [if_neg h1]
    by_cases h2 : bank < bet
    · rw [if_pos h2]
      refine ⟨by simp; omega, by omega, fun _ _ => rfl, by omega, by simp; omega,
        ⟨by omega, fun _ _ => rfl, by omega⟩, rfl⟩
    · rw [if_neg h2]
      by_cases h3 : bet = amt
      · rw [if_neg (by omega), if_neg (by simpa using h3), if_pos (by omega)]
        refine ⟨by simp; omega, by omega, by omega, by simp [h3], by simp; omega,
          ⟨by omega, by omega, fun _ _ => rfl⟩, rfl⟩
      · rw [if_neg (by omega), if_pos (by simpa using h3), if_neg (by omega)]
        refine ⟨by simp [h3], by omega, by omega, fun _ _ _ => rfl, by simp; omega,
          ⟨by omega, by omega, by simp [h3]⟩, rfl⟩

/-- Claim C5: for a bet by the player on action and in hand, `MakeBet`
validates through the bet-type switch against the computed amount-to-call:
a CALL is accepted iff the bet equals the amount-to-call and the player can
cover it, failing `InsufficientBet` below the amount-to-call, then
`InsufficientChips` when the bank cannot cover the bet, then
`IncorrectBetForBetType` when the bet differs from the amount-to-call; a
RAISE is accepted iff the bet strictly exceeds the amount-to-call and the
player can cover it, failing `WrongBetType` on an exact match (with the
chips check first); type NONE always fails `NoBetTypeSet`.  Every switch
error short-circuits `MakeBet` before any store write. -/
theorem makeBet_legality (st : ServerSt) (b : PbBet) (r : PbRound) (player : PbPlayer)
    (hin : st.game.inRound = true)
    (hgid : b.game = st.game.id)
    (hr : getRound st b.round = .ok r)
    (hvalid : statusIsValidForBet r.status = true)
    (hstat : r.status = b.status)
    (hp : getPlayerSrv st b.player = .ok player)
    (haction : r.action = player.slot)
    (hinhand : player.inHand = true) :
    (∀ bank bet amt : Int,
      (betLegality .CALL bank bet amt = .ok () ↔ bet = amt ∧ bet ≤ bank) ∧
      (bet < amt → betLegality .CALL bank bet amt = .error .InsufficientBet) ∧
      (amt ≤ bet → bank < bet → betLegality .CALL bank bet amt = .error .InsufficientChips) ∧
      (amt ≤ bet → bet ≤ bank → bet ≠ amt →
        betLegality .CALL bank bet amt = .error .IncorrectBetForBetType) ∧
      (betLegality .RAISE bank bet amt = .ok () ↔ amt < bet ∧ bet ≤ bank) ∧
      (bet = amt → bet ≤ bank → betLegality .RAISE bank bet amt = .error .WrongBetType) ∧
      betLegality .NONE bank bet amt = .error .NoBetTypeSet) ∧
    (∀ e, betLegality b.type player.chips b.chips (amountToCall st r b.player) = .error e →
      makeBet st b = .error e) := by
  constructor
  · intro bank bet amt
    obtain ⟨hc1, hc2, hc3, hc4, hr1, ⟨-, -, hr2⟩, hn⟩ := betLegality_char bank bet amt
    exact ⟨hc1, hc2, hc3, hc4, hr1, hr2, hn⟩
  · intro e he
    have hgame : getGame st b.game = .ok
        { id := st.game.id, name := st.game.name, dealer := st.game.dealer
          min := st.game.min, inRound := st.game.inRound, players := hydratedPlayers st } := by
      simp [getGame, hgid]
    unfold makeBet
    simp only [hgame, hr, hp]
    rw [if_neg (by simp [hin])]
    rw [if_neg (by simp [hvalid])]
    rw [if_neg (by simp [hstat])]
    rw [if_neg (by simp [haction])]
    rw [if_neg (by simp [hinhand])]
    cases hb : b.type with
    | FOLD => rw [hb] at he; simp [betLegality] at he
    | NONE => rw [hb] at he; simp [he]
    | CALL => rw [hb] at he; simp [he]
    | RAISE => rw [hb] at he; simp [he]
    | SMALL => rw [hb] at he; simp [betLegality] at he
    | BIG => rw [hb] at he; simp [betLegality] at he

/-- Witness for `makeBet_legality` on `traceSt`: a 1-chip CALL when the
amount-to-call is 0 fails with `IncorrectBetForBetType` (above the
amount-to-call, affordable, but not equal to it). -/
theorem makeBet_legality_witness :
    makeBet traceSt { traceBet with chips := 1 } = .error .IncorrectBetForBetType := by
  have h := makeBet_legality traceSt { traceBet with chips := 1 }
    { traceSt.round.protoMarshal with players := hydratedPlayers traceSt }
    { id := 5, name := "a", chips := 1000, slot := 1, inHand := true, cards := "AhAd", score := 0 }
    (by decide) (by decide) (by decide) (by decide) (by decide) (by decide) (by decide)
    (by decide)
  exact h.2 .IncorrectBetForBetType (by decide)

/-! ## Engine step lemmas (shared by the street-transition and start-round
claims) -/

/-- Every `RoundStatus` name is a non-empty string. -/
theorem goString_ne_empty (x : RoundStatus) : x.goString ≠ "" := by
  cases x <;> decide

/-- Reading the stored round by its own id. -/
theorem getRound_eq (st : ServerSt) (i : Int) (h : i = st.round.id) :
    getRound st i = .ok { st.round.protoMarshal with players := hydratedPlayers st } := by
  simp [getRound, h]

/-- Reading the stored game by its own id. -/
theorem getGame_eq (st : ServerSt) (i : Int) (h : i = st.game.id) :
    getGame st i = .ok
      { id := st.game.id, name := st.game.name, dealer := st.game.dealer
        min := st.game.min, inRound := st.game.inRound, players := hydratedPlayers st } := by
  simp [getGame, h]

/-- Writing back a round proto that differs from the stored row only in
`status`: every other column of the gorm update carries the stored value
(or is zero-valued and skipped), so the row changes only in `status`. -/
theorem updateRoundStatus_eq (st : ServerSt) (r : PbRound)
    (hid : r.id = st.round.id) (hdeck : r.deck = st.round.deck)
    (hflop : r.flop = st.round.flop) (hturn : r.turn = st.round.turn)
    (hriver : r.river = st.round.river) (hgame : r.game = st.round.game)
    (haction : r.action = st.round.action)
    (hwp : r.winningPlayer = st.round.winningPlayer)
    (hwh : r.winningHand = st.round.winningHand)
    (hws : r.winningScore = st.round.winningScore) :
    updateRoundStatus st r =
      .ok ({ st with round := { st.round with status := r.status.goString } },
           { ({ st.round with status := r.status.goString } : DbRound).protoMarshal with
             players := hydratedPlayers st }) := by
  have hx := goString_ne_empty r.status
  unfold updateRoundStatus
  rw [hid, if_pos rfl]
  have hupd : updatesRound st.round (roundProtoUnMarshal r) =
      { st.round with status := r.status.goString } := by
    simp [updatesRound, roundProtoUnMarshal, hdeck, hflop, hturn, hriver, hgame, haction,
      hwp, hwh, hws, hx, ite_self]
  rw [hupd]
  simp [getRound, hydratedPlayers]

/-- `SetAction` writes only the action column. -/
theorem setAction_eq (st : ServerSt) (r : PbRound) (hid : r.id = st.round.id) :
    setAction st r =
      .ok ({ st with round := { st.round with action := r.action } },
           { ({ st.round with action := r.action } : DbRound).protoMarshal with
             players := hydratedPlayers st }) := by
  unfold setAction
  rw [hid, getRound_eq _ _ rfl, if_pos rfl]
  simp [getRound, hydratedPlayers]

/-- Dealing from a deck presented as `l ++ [x]` takes `x` and leaves `l`. -/
theorem dealCardE_concat (l : Deck) (x : Card) : dealCardE (l ++ [x]) = .ok (x, l) := by
  unfold dealCardE DealCard
  rw [List.getLast?_concat, List.dropLast_concat]

/-- A deck of at least four cards splits off its last four. -/
theorem exists_last4 (d : Deck) (h : 4 ≤ d.length) :
    ∃ d4 c3 c2 c1 b, d = d4 ++ [c3, c2, c1, b] := by
  have hd : d.reverse.reverse = d := List.reverse_reverse d
  rcases hrev : d.reverse with _ | ⟨b, _ | ⟨c1, _ | ⟨c2, _ | ⟨c3, rest⟩⟩⟩⟩ <;>
    [skip; skip; skip; skip;
     exact ⟨rest.reverse, c3, c2, c1, b, by rw [← hd, hrev]; simp⟩] <;>
  · exfalso
    have := congrArg List.length hrev
    simp only [List.length_reverse, List.length_cons, List.length_nil] at this
    omega

/-- A deck of at least two cards splits off its last two. -/
theorem exists_last2 (d : Deck) (h : 2 ≤ d.length) :
    ∃ d2 c1 b, d = d2 ++ [c1, b] := by
  have hd : d.reverse.reverse = d := List.reverse_reverse d
  rcases hrev : d.reverse with _ | ⟨b, _ | ⟨c1, rest⟩⟩ <;>
    [skip; skip;
     exact ⟨rest.reverse, c1, b, by rw [← hd, hrev]; simp⟩] <;>
  · exfalso
    have := congrArg List.length hrev
    simp only [List.length_reverse, List.length_cons, List.length_nil] at this
    omega

/-- Hydration preserves the in-hand count. -/
theorem hydrated_inHand_count (ps : List DbPlayer) :
    ((ps.map DbPlayer.protoMarshal).filter (fun p => p.inHand)).length =
      (ps.filter (fun p => p.inHand)).length := by
  induction ps with
  | nil => rfl
  | cons p ps ih =>
    by_cases h : p.inHand
    · simp [DbPlayer.protoMarshal, h, ih]
    · simp [DbPlayer.protoMarshal, h, ih]


/-- Round-tripping a status name through the enum lookup is the identity. -/
theorem roundStatusOfString_goString (x : RoundStatus) :
    roundStatusOfString x.goString = x := by
  cases x <;> rfl

/-- Splitting the last of four appended elements. -/
theorem lastApp4 {A : Type} (l : List A) (a b c d : A) :
    (l ++ [a, b, c, d]).getLast? = some d := by
  rw [show [a, b, c, d] = [a, b, c] ++ [d] from rfl, ← List.append_assoc,
    List.getLast?_concat]

/-- Dropping the last of four appended elements. -/
theorem dropApp4 {A : Type} (l : List A) (a b c d : A) :
    (l ++ [a, b, c, d]).dropLast = l ++ [a, b, c] := by
  rw [show [a, b, c, d] = [a, b, c] ++ [d] from rfl, ← List.append_assoc,
    List.dropLast_concat]

/-- Splitting the last of three appended elements. -/
theorem lastApp3 {A : Type} (l : List A) (a b c : A) :
    (l ++ [a, b, c]).getLast? = some c := by
  rw [show [a, b, c] = [a, b] ++ [c] from rfl, ← List.append_assoc,
    List.getLast?_concat]

/-- Dropping the last of three appended elements. -/
theorem dropApp3 {A : Type} (l : List A) (a b c : A) :
    (l ++ [a, b, c]).dropLast = l ++ [a, b] := by
  rw [show [a, b, c] = [a, b] ++ [c] from rfl, ← List.append_assoc,
    List.dropLast_concat]

/-- Splitting the last of two appended elements. -/
theorem lastApp2 {A : Type} (l : List A) (a b : A) :
    (l ++ [a, b]).getLast? = some b := by
  rw [show [a, b] = [a] ++ [b] from rfl, ← List.append_assoc, List.getLast?_concat]

/-- Dropping the last of two appended elements. -/
theorem dropApp2 {A : Type} (l : List A) (a b : A) :
    (l ++ [a, b]).dropLast = l ++ [a] := by
  rw [show [a, b] = [a] ++ [b] from rfl, ← List.append_assoc, List.dropLast_concat]

/-- If every in-hand player holds cards, the deal guard of the street
dealers passes. -/
theorem noCards_guard (ps : List DbPlayer)
    (h : ∀ p ∈ ps, p.inHand = true → p.cards ≠ "") :
    ((ps.map DbPlayer.protoMarshal).any fun p => p.inHand && p.cards = "") = false := by
  induction ps with
  | nil => rfl
  | cons p ps ih =>
    have hp := h p (List.mem_cons_self _ _)
    have ih' := ih (fun q hq => h q (List.mem_cons_of_mem _ hq))
    by_cases hin : p.inHand = true
    · simp [DbPlayer.protoMarshal, hin, hp hin, ih']
    · simp [DbPlayer.protoMarshal, hin, ih']

/-- `DealFlop` on a round whose in-hand players hold cards and whose deck
splits off four cards: the last card is burned, the next three become the
flop (in reversed deal order), the rest is written back as the deck. -/
theorem dealFlop_spec (st : ServerSt) (r : PbRound) (d4 : Deck) (b c1 c2 c3 : Card)
    (hid : r.id = st.round.id)
    (hguard : (r.players.any fun p => p.inHand && p.cards = "") = false)
    (hdeck : Deck.marshal r.deck = d4 ++ [c3, c2, c1, b]) :
    dealFlop st r = .ok
      ({ st with round :=
          { st.round with flop := c1.str ++ c2.str ++ c3.str, deck := Deck.str d4 } },
       { ({ st.round with flop := c1.str ++ c2.str ++ c3.str, deck := Deck.str d4 }
            : DbRound).protoMarshal with players := hydratedPlayers st }) := by
  simp [dealFlop, hguard, hdeck, dealCardE, DealCard, lastApp4, dropApp4, lastApp3,
    dropApp3, lastApp2, dropApp2, List.getLast?_concat, List.dropLast_concat,
    updateRoundFlop, updateDeck, getRound, hid, DbRound.protoMarshal, hydratedPlayers]


/-- `DealRiver`: re-reads the round, burns the stored deck's last card and
deals the next one into the river. -/
theorem dealRiver_spec (st : ServerSt) (r : PbRound) (d2 : Deck) (b c1 : Card)
    (hid : r.id = st.round.id)
    (hguard : (r.players.any fun p => p.inHand && p.cards = "") = false)
    (hdeck : Deck.marshal st.round.deck = d2 ++ [c1, b]) :
    dealRiver st r = .ok
      ({ st with round := { st.round with river := c1.str, deck := Deck.str d2 } },
       { ({ st.round with river := c1.str, deck := Deck.str d2 }
            : DbRound).protoMarshal with players := hydratedPlayers st }) := by
  simp [dealRiver, hguard, hdeck, dealCardE, DealCard, lastApp2, dropApp2,
    List.getLast?_concat, List.dropLast_concat, updateRoundRiver, updateDeck,
    getRound, hid, DbRound.protoMarshal, hydratedPlayers]

/-- `DealTurn`: re-reads the round, burns the stored deck's last card and
deals the next one into the turn. -/
theorem dealTurn_spec (st : ServerSt) (r : PbRound) (d2 : Deck) (b c1 : Card)
    (hid : r.id = st.round.id)
    (hguard : (r.players.any fun p => p.inHand && p.cards = "") = false)
    (hdeck : Deck.marshal st.round.deck = d2 ++ [c1, b]) :
    dealTurn st r = .ok
      ({ st with round := { st.round with turn := c1.str, deck := Deck.str d2 } },
       { ({ st.round with turn := c1.str, deck := Deck.str d2 }
            : DbRound).protoMarshal with players := hydratedPlayers st }) := by
  simp [dealTurn, hguard, hdeck, dealCardE, DealCard, lastApp2, dropApp2,
    List.getLast?_concat, List.dropLast_concat, updateRoundTurn, updateDeck,
    getRound, hid, DbRound.protoMarshal, hydratedPlayers]


/-! ## Claim C7 — SetNextRound street transitions -/

/-- Claim C7: `SetNextRound` advances the hand's status by the fixed
successor map PRE_FLOP→FLOP→RIVER→TURN→SHOW→OVER (RIVER preceding TURN);
on the transition to FLOP it burns one card and deals exactly three into
the flop, to RIVER it burns one and deals one into the river, to TURN it
burns one and deals one into the turn, to SHOW it deals nothing; and on
every non-OVER transition it resets the hand's action to the first
still-in-hand player after the dealer (`FirstOnBet`, modelled from the
spec).  Stated for a hand on any of the four betting streets, with betting
closed, every in-hand player holding cards, at least two players still in
hand and at least four cards left in the deck. -/
theorem setNextRound_street_transitions (st : ServerSt) (cur : RoundStatus) (fb : PbPlayer)
    (hst : st.round.status = cur.goString)
    (hcur : cur = .PRE_FLOP ∨ cur = .FLOP ∨ cur = .RIVER ∨ cur = .TURN)
    (hover : isBettingOver st st.round.id = .ok true)
    (hgm : st.round.game = st.game.id)
    (hfb : (newRing (gameView st)).firstOnBet = .ok fb)
    (hcards : ∀ p ∈ st.players, p.inHand = true → p.cards ≠ "")
    (h2 : 2 ≤ (st.players.filter (fun p => p.inHand)).length)
    (hdl : 4 ≤ (Deck.marshal st.round.deck).length) :
    statusSucc .PRE_FLOP = .FLOP ∧ statusSucc .FLOP = .RIVER ∧ statusSucc .RIVER = .TURN ∧
    statusSucc .TURN = .SHOW ∧ statusSucc .SHOW = .OVER ∧
    ∃ st' r', setNextRound st st.round.id = .ok (st', r') ∧
      st'.round.status = (statusSucc cur).goString ∧
      r'.status = statusSucc cur ∧
      st'.round.action = fb.slot ∧
      r'.action = fb.slot ∧
      st'.players = st.players ∧
      (cur = .TURN →
        st'.round.deck = st.round.deck ∧ st'.round.flop = st.round.flop ∧
        st'.round.river = st.round.river ∧ st'.round.turn = st.round.turn) ∧
      (cur = .PRE_FLOP → ∃ d4 c3 c2 c1 b,
        Deck.marshal st.round.deck = d4 ++ [c3, c2, c1, b] ∧
        st'.round.flop = c1.str ++ c2.str ++ c3.str ∧ st'.round.deck = Deck.str d4 ∧
        st'.round.river = st.round.river ∧ st'.round.turn = st.round.turn) ∧
      (cur = .FLOP → ∃ d2 c1 b,
        Deck.marshal st.round.deck = d2 ++ [c1, b] ∧
        st'.round.river = c1.str ∧ st'.round.deck = Deck.str d2 ∧
        st'.round.flop = st.round.flop ∧ st'.round.turn = st.round.turn) ∧
      (cur = .RIVER → ∃ d2 c1 b,
        Deck.marshal st.round.deck = d2 ++ [c1, b] ∧
        st'.round.turn = c1.str ∧ st'.round.deck = Deck.str d2 ∧
        st'.round.flop = st.round.flop ∧ st'.round.river = st.round.river) := by
  have hguard := noCards_guard st.players hcards
  have hc : ((st.players.map DbPlayer.protoMarshal).filter (fun p => p.inHand)).length ≠ 1 := by
    rw [hydrated_inHand_count]; omega
  have hfb2 := hfb
  simp only [gameView, hydratedPlayers] at hfb2
  rcases hcur with rfl | rfl | rfl | rfl
  · obtain ⟨d4, c3, c2, c1, b, hdeck⟩ := exists_last4 (Deck.marshal st.round.deck) hdl
    refine ⟨rfl, rfl, rfl, rfl, rfl,
      ({ st with
           round := { st.round with
                        deck := Deck.str d4
                        status := "FLOP"
                        flop := c1.str ++ c2.str ++ c3.str
                        action := fb.slot } } : ServerSt),
      ({ id := st.round.id
         status := .FLOP
         players := hydratedPlayers st
         deck := Deck.str d4
         flop := c1.str ++ c2.str ++ c3.str
         turn := st.round.turn
         river := st.round.river
         game := st.round.game
         action := fb.slot
         winningPlayer := st.round.winningPlayer
         winningHand := st.round.winningHand
         winningScore := st.round.winningScore } : PbRound),
      ?_, rfl, rfl, rfl, rfl, rfl,
      (fun h => nomatch h), (fun _ => ⟨d4, c3, c2, c1, b, hdeck, rfl, rfl, rfl, rfl⟩),
      (fun h => nomatch h), (fun h => nomatch h)⟩
    simp [setNextRound, getRound, hst, roundStatusOfString, RoundStatus.goString, statusSucc,
      hover, updateRoundStatus, updatesRound, roundProtoUnMarshal, DbRound.protoMarshal,
      hydratedPlayers, hgm, getGame, hfb2, setAction, dealFlop, dealCardE, DealCard,
      lastApp4, dropApp4, lastApp3, dropApp3, lastApp2, dropApp2, List.getLast?_concat,
      List.dropLast_concat, updateRoundFlop, updateDeck, hguard, hdeck, hc, ite_self]
  · obtain ⟨d2, c1, b, hdeck⟩ := exists_last2 (Deck.marshal st.round.deck) (by omega)
    refine ⟨rfl, rfl, rfl, rfl, rfl,
      ({ st with
           round := { st.round with
                        deck := Deck.str d2
                        status := "RIVER"
                        river := c1.str
                        action := fb.slot } } : ServerSt),
      ({ id := st.round.id
         status := .RIVER
         players := hydratedPlayers st
         deck := Deck.str d2
         flop := st.round.flop
         turn := st.round.turn
         river := c1.str
         game := st.round.game
         action := fb.slot
         winningPlayer := st.round.winningPlayer
         winningHand := st.round.winningHand
         winningScore := st.round.winningScore } : PbRound),
      ?_, rfl, rfl, rfl, rfl, rfl,
      (fun h => nomatch h), (fun h => nomatch h),
      (fun _ => ⟨d2, c1, b, hdeck, rfl, rfl, rfl, rfl⟩), (fun h => nomatch h)⟩
    simp [setNextRound, getRound, hst, roundStatusOfString, RoundStatus.goString, statusSucc,
      hover, updateRoundStatus, updatesRound, roundProtoUnMarshal, DbRound.protoMarshal,
      hydratedPlayers, hgm, getGame, hfb2, setAction, dealRiver, dealCardE, DealCard,
      lastApp2, dropApp2, List.getLast?_concat, List.dropLast_concat, updateRoundRiver,
      updateDeck, hguard, hdeck, hc, ite_self]
  · obtain ⟨d2, c1, b, hdeck⟩ := exists_last2 (Deck.marshal st.round.deck) (by omega)
    refine ⟨rfl, rfl, rfl, rfl, rfl,
      ({ st with
           round := { st.round with
                        deck := Deck.str d2
                        status := "TURN"
                        turn := c1.str
                        action := fb.slot } } : ServerSt),
      ({ id := st.round.id
         status := .TURN
         players := hydratedPlayers st
         deck := Deck.str d2
         flop := st.round.flop
         turn := c1.str
         river := st.round.river
         game := st.round.game
         action := fb.slot
         winningPlayer := st.round.winningPlayer
         winningHand := st.round.winningHand
         winningScore := st.round.winningScore } : PbRound),
      ?_, rfl, rfl, rfl, rfl, rfl,
      (fun h => nomatch h), (fun h => nomatch h), (fun h => nomatch h),
      (fun _ => ⟨d2, c1, b, hdeck, rfl, rfl, rfl, rfl⟩)⟩
    simp [setNextRound, getRound, hst, roundStatusOfString, RoundStatus.goString, statusSucc,
      hover, updateRoundStatus, updatesRound, roundProtoUnMarshal, DbRound.protoMarshal,
      hydratedPlayers, hgm, getGame, hfb2, setAction, dealTurn, dealCardE, DealCard,
      lastApp2, dropApp2, List.getLast?_concat, List.dropLast_concat, updateRoundTurn,
      updateDeck, hguard, hdeck, hc, ite_self]
  · refine ⟨rfl, rfl, rfl, rfl, rfl,
      ({ st with
           round := { st.round with
                        status := "SHOW"
                        action := fb.slot } } : ServerSt),
      ({ id := st.round.id
         status := .SHOW
         players := hydratedPlayers st
         deck := st.round.deck
         flop := st.round.flop
         turn := st.round.turn
         river := st.round.river
         game := st.round.game
         action := fb.slot
         winningPlayer := st.round.winningPlayer
         winningHand := st.round.winningHand
         winningScore := st.round.winningScore } : PbRound),
      ?_, rfl, rfl, rfl, rfl, rfl,
      (fun _ => ⟨rfl, rfl, rfl, rfl⟩), (fun h => nomatch h), (fun h => nomatch h),
      (fun h => nomatch h)⟩
    simp [setNextRound, getRound, hst, roundStatusOfString, RoundStatus.goString, statusSucc,
      hover, updateRoundStatus, updatesRound, roundProtoUnMarshal, DbRound.protoMarshal,
      hydratedPlayers, hgm, getGame, hfb2, setAction, hc, ite_self]

/-- Witness: on the balanced two-seat PRE_FLOP table `c7St` (betting
closed, both players holding cards), `SetNextRound` succeeds and the
stored status becomes `statusSucc PRE_FLOP = FLOP`. -/
theorem setNextRound_street_transitions_witness :
    ∃ st' r', setNextRound c7St c7St.round.id = .ok (st', r') ∧
      st'.round.status = (statusSucc .PRE_FLOP).goString := by
  obtain ⟨-, -, -, -, -, st', r', hrun, hstat, -⟩ :=
    setNextRound_street_transitions c7St .PRE_FLOP
      { id := 2, name := "b", chips := 980, slot := 2, inHand := true, cards := "2c2s"
        score := 0 }
      (by decide) (Or.inl rfl) (by decide) (by decide) (by decide) (by decide) (by decide)
      (by decide)
  exact ⟨st', r', hrun, hstat⟩


/-! ## Claim C4 — helper lemmas on the deck encoding -/

/-- `String.append` concatenates the character data. -/
theorem string_data_append (a b : String) : (a ++ b).data = a.data ++ b.data := by
  cases a; cases b; rfl

/-- A `String.join` concatenates all the character data. -/
theorem string_data_join (l : List String) :
    (String.join l).data = (l.map String.data).flatten := by
  have key : ∀ (l : List String) (acc : String),
      (l.foldl (fun a b => a ++ b) acc).data = acc.data ++ (l.map String.data).flatten := by
    intro l
    induction l with
    | nil => intro acc; simp
    | cons s l ih =>
      intro acc
      simp [List.foldl_cons, ih, string_data_append]
  have : String.join l = l.foldl (fun a b => a ++ b) "" := rfl
  rw [this, key]
  rfl

/-- If a string is non-empty, so is any extension of it. -/
theorem str_append_ne_empty (a b : String) (h : a ≠ "") : a ++ b ≠ "" := by
  intro hc
  apply h
  have hd := congrArg String.data hc
  rw [string_data_append] at hd
  rcases List.append_eq_nil.mp hd with ⟨ha, -⟩
  cases a
  simp_all

/-- Marshalling is a left inverse of printing on decks of two-character
cards (one rank character, one suit character). -/
theorem marshal_str (d : Deck) (h : ∀ c ∈ d, c.type.length = 1 ∧ c.suit.length = 1) :
    Deck.marshal (Deck.str d) = d := by
  induction d with
  | nil => rfl
  | cons c rest ih =>
    obtain ⟨ht, hs⟩ := h c (List.mem_cons_self _ _)
    have ht' : c.type.data.length = 1 := ht
    have hs' : c.suit.data.length = 1 := hs
    obtain ⟨t, htl⟩ := List.length_eq_one.mp ht'
    obtain ⟨s, hsl⟩ := List.length_eq_one.mp hs'
    have hct : c.type = ⟨[t]⟩ := by rw [← htl]
    have hcs : c.suit = ⟨[s]⟩ := by rw [← hsl]
    have hdata : (Deck.str (c :: rest)).data = t :: s :: (Deck.str rest).data := by
      show (String.join ((c :: rest).map Card.str)).data = _
      rw [List.map_cons, string_data_join, List.map_cons, List.flatten_cons]
      show (Card.str c).data ++ _ = _
      rw [show Card.str c = c.type ++ c.suit from rfl, string_data_append, hct, hcs]
      show [t] ++ [s] ++ ((rest.map Card.str).map String.data).flatten = _
      rw [← string_data_join]
      rfl
    show marshalChars (Deck.str (c :: rest)).data = c :: rest
    rw [hdata]
    show ({ type := ⟨[t]⟩, suit := ⟨[s]⟩ } : Card) :: marshalChars (Deck.str rest).data = _
    rw [← hct, ← hcs]
    have : marshalChars (Deck.str rest).data = rest := ih (fun q hq => h q (List.mem_cons_of_mem _ hq))
    rw [this]

/-- Every card of the canonical deck prints as a non-empty string and has
one rank and one suit character. -/
theorem deckNew_cards_valid :
    ∀ c ∈ deckNew, Card.str c ≠ "" ∧ c.type.length = 1 ∧ c.suit.length = 1 := by
  decide

/-- A deck of at least seven cards splits off its last seven. -/
theorem exists_last7 (d : Deck) (h : 7 ≤ d.length) :
    ∃ d0 g6 g5 g4 g3 g2 g1 b, d = d0 ++ [g6, g5, g4, g3, g2, g1, b] := by
  have hd : d.reverse.reverse = d := List.reverse_reverse d
  rcases hrev : d.reverse with _ | ⟨b, _ | ⟨g1, _ | ⟨g2, _ | ⟨g3, _ | ⟨g4, _ | ⟨g5, _ | ⟨g6, rest⟩⟩⟩⟩⟩⟩⟩ <;>
    [skip; skip; skip; skip; skip; skip; skip;
     exact ⟨rest.reverse, g6, g5, g4, g3, g2, g1, b, by rw [← hd, hrev]; simp⟩] <;>
  · exfalso
    have := congrArg List.length hrev
    simp only [List.length_reverse, List.length_cons, List.length_nil] at this
    omega

/-- Splitting the last of five appended elements. -/
theorem lastApp5 {A : Type} (l : List A) (a b c d e : A) :
    (l ++ [a, b, c, d, e]).getLast? = some e := by
  rw [show [a, b, c, d, e] = [a, b, c, d] ++ [e] from rfl, ← List.append_assoc,
    List.getLast?_concat]

/-- Dropping the last of five appended elements. -/
theorem dropApp5 {A : Type} (l : List A) (a b c d e : A) :
    (l ++ [a, b, c, d, e]).dropLast = l ++ [a, b, c, d] := by
  rw [show [a, b, c, d, e] = [a, b, c, d] ++ [e] from rfl, ← List.append_assoc,
    List.dropLast_concat]

/-- Splitting the last of six appended elements. -/
theorem lastApp6 {A : Type} (l : List A) (a b c d e f : A) :
    (l ++ [a, b, c, d, e, f]).getLast? = some f := by
  rw [show [a, b, c, d, e, f] = [a, b, c, d, e] ++ [f] from rfl, ← List.append_assoc,
    List.getLast?_concat]

/-- Dropping the last of six appended elements. -/
theorem dropApp6 {A : Type} (l : List A) (a b c d e f : A) :
    (l ++ [a, b, c, d, e, f]).dropLast = l ++ [a, b, c, d, e] := by
  rw [show [a, b, c, d, e, f] = [a, b, c, d, e] ++ [f] from rfl, ← List.append_assoc,
    List.dropLast_concat]

/-- Splitting the last of seven appended elements. -/
theorem lastApp7 {A : Type} (l : List A) (a b c d e f g : A) :
    (l ++ [a, b, c, d, e, f, g]).getLast? = some g := by
  rw [show [a, b, c, d, e, f, g] = [a, b, c, d, e, f] ++ [g] from rfl, ← List.append_assoc,
    List.getLast?_concat]

/-- Dropping the last of seven appended elements. -/
theorem dropApp7 {A : Type} (l : List A) (a b c d e f g : A) :
    (l ++ [a, b, c, d, e, f, g]).dropLast = l ++ [a, b, c, d, e, f] := by
  rw [show [a, b, c, d, e, f, g] = [a, b, c, d, e, f] ++ [g] from rfl, ← List.append_assoc,
    List.dropLast_concat]

/-- Claim C4 (amended): `StartRound` on a fresh three-seat table — the
store is otherwise arbitrary: distinct player ids unequal to the game id,
any names, chip counts and blind `m`, any shuffled 52-card deck whose last
seven cards are named — succeeds with: the deck down to 52 − (2·3 + 1)
cards, every player dealt two (non-empty) hole cards and `in_hand`,
exactly two bets SMALL `m` then BIG `2m` (their player column carrying the
game id, see `betProtoUnMarshal`), the small blind debited `m` and the big
blind `2m`, status PRE_FLOP — and the action on the first in-hand seat
*after the big blind* (the dealer's own seat three-handed), not on the
small blind's seat. -/
theorem startRound_three_handed
    (i1 i2 i3 g rid : Int) (n1 n2 n3 gn : String) (a1 a2 a3 m : Int)
    (s1 s2 s3 : Int) (st : ServerSt) (d d0 : Deck) (g6 g5 g4 g3 g2 g1 burn : Card)
    (h12 : i1 ≠ i2) (h13 : i1 ≠ i3) (h23 : i2 ≠ i3)
    (hg1 : g ≠ i1) (hg2 : g ≠ i2) (hg3 : g ≠ i3)
    (hst : st =
      { players :=
          [{ id := i1, name := n1, chips := a1, slot := s1, cards := "", inHand := false },
           { id := i2, name := n2, chips := a2, slot := s2, cards := "", inHand := false },
           { id := i3, name := n3, chips := a3, slot := s3, cards := "", inHand := false }]
        game := { id := g, name := gn, dealer := 1, min := m, inRound := false }
        round := { id := rid, deck := "", status := "NOT_STARTED", flop := "", turn := ""
                   river := "", game := g, action := 0, winningPlayer := 0, winningHand := ""
                   winningScore := 0 }
        bets := [] })
    (hperm : d.Perm deckNew)
    (hdec : d = d0 ++ [g6, g5, g4, g3, g2, g1, burn]) :
    ∃ st' r', startRound st rid d = .ok (st', r') ∧
      st' =
        { players :=
            [{ id := i1, name := n1, chips := a1, slot := 1
               cards := g1.str ++ g2.str, inHand := true },
             { id := i2, name := n2, chips := a2 - m, slot := 2
               cards := g3.str ++ g4.str, inHand := true },
             { id := i3, name := n3, chips := a3 - m * 2, slot := 3
               cards := g5.str ++ g6.str, inHand := true }]
          game := { id := g, name := gn, dealer := 1, min := m, inRound := true }
          round := { id := rid, deck := Deck.str d0, status := "PRE_FLOP", flop := ""
                     turn := "", river := "", game := g, action := 1, winningPlayer := 0
                     winningHand := "", winningScore := 0 }
          bets :=
            [{ status := "PRE_FLOP", round := rid, game := g, player := g, chips := m
               type := "SMALL" },
             { status := "PRE_FLOP", round := rid, game := g, player := g, chips := m * 2
               type := "BIG" }] } ∧
      r' =
        { id := rid, status := .PRE_FLOP
          players :=
            [{ id := i1, name := n1, chips := a1, slot := 1, inHand := true
               cards := g1.str ++ g2.str, score := 0 },
             { id := i2, name := n2, chips := a2 - m, slot := 2, inHand := true
               cards := g3.str ++ g4.str, score := 0 },
             { id := i3, name := n3, chips := a3 - m * 2, slot := 3, inHand := true
               cards := g5.str ++ g6.str, score := 0 }]
          deck := Deck.str d0, flop := "", turn := "", river := "", game := g, action := 1
          winningPlayer := 0, winningHand := "", winningScore := 0 } ∧
      d0.length = 52 - (2 * 3 + 1) ∧
      g1.str ++ g2.str ≠ "" ∧ g3.str ++ g4.str ≠ "" ∧ g5.str ++ g6.str ≠ "" ∧
      ∃ big small rg, (newRing (gameView st')).getBigAndSmallBlind = .ok (big, small, rg) ∧
        small.slot = 2 ∧ big.slot = 3 ∧
        ∃ nxt, rg.nextInHand = .ok nxt ∧ nxt.slot = 1 ∧ st'.round.action = nxt.slot := by
  subst hst
  subst hdec
  have h52 : deckNew.length = 52 := by decide
  have hdlen : d0.length + 7 = 52 := by simpa [h52] using hperm.length_eq
  have hv : ∀ c ∈ d0 ++ [g6, g5, g4, g3, g2, g1, burn],
      Card.str c ≠ "" ∧ c.type.length = 1 ∧ c.suit.length = 1 :=
    fun c hc => deckNew_cards_valid c (hperm.mem_iff.mp hc)
  have hrt := marshal_str (d0 ++ [g6, g5, g4, g3, g2, g1, burn]) (fun c hc => (hv c hc).2)
  have hfull : (Deck.marshal (Deck.str (d0 ++ [g6, g5, g4, g3, g2, g1, burn]))).isFull = true := by
    rw [hrt]
    simp [Deck.isFull]
    omega
  have hne1 : g1.str ++ g2.str ≠ "" := str_append_ne_empty _ _ (hv g1 (by simp)).1
  have hne2 : g3.str ++ g4.str ≠ "" := str_append_ne_empty _ _ (hv g3 (by simp)).1
  have hne3 : g5.str ++ g6.str ≠ "" := str_append_ne_empty _ _ (hv g5 (by simp)).1
  have b12 : (i1 == i2) = false := by simp [h12]
  have b21 : (i2 == i1) = false := by simp [Ne.symm h12]
  have b13 : (i1 == i3) = false := by simp [h13]
  have b31 : (i3 == i1) = false := by simp [Ne.symm h13]
  have b23 : (i2 == i3) = false := by simp [h23]
  have b32 : (i3 == i2) = false := by simp [Ne.symm h23]
  have bg1 : (g == i1) = false := by simp [hg1]
  have bg2 : (g == i2) = false := by simp [hg2]
  have bg3 : (g == i3) = false := by simp [hg3]
  have hr3 : List.range 3 = [0, 1, 2] := rfl
  have s21 : i2 ≠ i1 := Ne.symm h12
  have s31 : i3 ≠ i1 := Ne.symm h13
  have s32 : i3 ≠ i2 := Ne.symm h23
  have gs1 : i1 ≠ g := Ne.symm hg1
  have gs2 : i2 ≠ g := Ne.symm hg2
  have gs3 : i3 ≠ g := Ne.symm hg3
  have hfull2 : (d0 ++ [g6, g5, g4, g3, g2, g1, burn]).isFull = true := by
    simp [Deck.isFull]
    omega
  refine ⟨_, _, ?hrun, rfl, rfl, by omega, hne1, hne2, hne3, ?hring⟩
  case hrun =>
    simp [startRound, createDeck, getRound, getGame, dealCards, dealToPlayers, dealCardE,
      DealCard, lastApp7, dropApp7, lastApp6, dropApp6, lastApp5, dropApp5, lastApp4, dropApp4,
      lastApp3, dropApp3, lastApp2, dropApp2, List.getLast?_concat, List.dropLast_concat,
      hrt, hfull, hfull2, updatePlayersCards, updatePlayerRow, updateDeck, updateRoundStatus,
      updatesRound, roundProtoUnMarshal, DbRound.protoMarshal, DbPlayer.protoMarshal,
      DbBet.protoMarshal, hydratedPlayers, updateGameInRound, allocateGameSlots, setSlotsLoop,
      setPlayerSlot, newRing, sortBySlot, insertBySlot, GameRing.getBigAndSmallBlind,
      GameRing.currentSmallBlind, GameRing.currentBigBlind, GameRing.currentDealer,
      GameRing.nextR, GameRing.marshalValue, GameRing.value?, GameRing.headsUp, GameRing.len,
      findCyclic, hr3, setAction, makeBet, statusIsValidForBet, getPlayerSrv, amountToCall,
      getRoundBets, getRoundBetsForStatus, sumForKey, betLegality, betProtoUnMarshal,
      BetType.goString, RoundStatus.goString, roundStatusOfString, betTypeOfString,
      setNextOnBet, GameRing.getPlayerFromSlot, GameRing.nextInHand, updatePlayersChips,
      isBettingOver, hne1, hne2, hne3, b12, b21, b13, b31, b23, b32, bg1, bg2, bg3,
      h12, h13, h23, hg1, hg2, hg3, s21, s31, s32, gs1, gs2, gs3, Except.map, ite_self]
  case hring =>
    refine ⟨{ id := i3, name := n3, chips := a3 - m * 2, slot := 3, inHand := true
              cards := g5.str ++ g6.str, score := 0 },
            { id := i2, name := n2, chips := a2 - m, slot := 2, inHand := true
              cards := g3.str ++ g4.str, score := 0 },
            { players :=
                [{ id := i1, name := n1, chips := a1, slot := 1, inHand := true
                   cards := g1.str ++ g2.str, score := 0 },
                 { id := i2, name := n2, chips := a2 - m, slot := 2, inHand := true
                   cards := g3.str ++ g4.str, score := 0 },
                 { id := i3, name := n3, chips := a3 - m * 2, slot := 3, inHand := true
                   cards := g5.str ++ g6.str, score := 0 }]
              cursor := 2, dealer := 1 },
            ?_, rfl, rfl,
            { id := i1, name := n1, chips := a1, slot := 1, inHand := true
              cards := g1.str ++ g2.str, score := 0 },
            ?_, rfl, rfl⟩
    · simp [gameView, hydratedPlayers, DbPlayer.protoMarshal, newRing, sortBySlot, insertBySlot,
        GameRing.getBigAndSmallBlind, GameRing.currentSmallBlind, GameRing.currentBigBlind,
        GameRing.currentDealer, GameRing.nextR, GameRing.marshalValue, GameRing.value?,
        GameRing.headsUp, GameRing.len, findCyclic, Except.map, hr3]
    · simp [GameRing.nextInHand, GameRing.len, findCyclic, Except.map, hr3]

/-- Claim C4 counterexample: on the validation-passing three-seat table
`tbl3s` (dealer seat 1), `StartRound` leaves the action on seat 1 — the
seat `SetNextOnBet` reaches after the big blind's post — while the small
blind sits at seat 2; the claim requires the action on the small blind's
seat. -/
theorem startRound_action_not_small_blind :
    validatePreGame (gameView tbl3s) = .ok (gameView tbl3s) ∧
    (match (newRing (gameView tbl3s)).getBigAndSmallBlind with
     | .ok (_, small, _) => small.slot
     | .error _ => 0) = 2 ∧
    (match startRound tbl3s 20 deckNew with
     | .ok (st', _) => st'.round.action
     | .error _ => 0) = 1 ∧
    (1 : Int) ≠ 2 :=
  ⟨by decide, by decide, by decide, by decide⟩

/-- Witness: the amended start-round theorem applied to `tbl3s` with the
unshuffled canonical deck. -/
theorem startRound_three_handed_witness :
    ∃ st' r', startRound tbl3s 20 deckNew = .ok (st', r') ∧
      st'.round.action = 1 ∧ st'.round.status = "PRE_FLOP" := by
  obtain ⟨st', r', hrun, hst', -, -, -, -, -, -⟩ :=
    startRound_three_handed 1 2 3 10 20 "a" "b" "c" "g" 1000 1000 1000 10 1 2 3 tbl3s
      deckNew (deckNew.take 45)
      ⟨"K", "d"⟩ ⟨"K", "c"⟩ ⟨"K", "s"⟩ ⟨"A", "h"⟩ ⟨"A", "d"⟩ ⟨"A", "c"⟩ ⟨"A", "s"⟩
      (by decide) (by decide) (by decide) (by decide) (by decide) (by decide) rfl
      (List.Perm.refl _) (by decide)
  refine ⟨st', r', hrun, ?_, ?_⟩
  · rw [hst']
  · rw [hst']


/-! ## Claim C9 — evaluator lemmas -/

/-- `minScores` bounds every member from below. -/
theorem minScores_le_of_mem (l : List Nat) (x : Nat) (hx : x ∈ l) : minScores l ≤ x := by
  have key : ∀ (xs : List Nat) (a : Nat), xs.foldl min a ≤ a ∧ ∀ y ∈ xs, xs.foldl min a ≤ y := by
    intro xs
    induction xs with
    | nil => intro a; exact ⟨le_refl _, by intro y hy; cases hy⟩
    | cons z zs ih =>
      intro a
      refine ⟨le_trans (ih (min a z)).1 (min_le_left _ _), ?_⟩
      intro y hy
      rcases List.mem_cons.mp hy with rfl | hy'
      · exact le_trans (ih (min a y)).1 (min_le_right _ _)
      · exact (ih (min a z)).2 y hy'
  cases l with
  | nil => cases hx
  | cons a xs =>
    rcases List.mem_cons.mp hx with rfl | hx'
    · exact (key xs x).1
    · exact (key xs a).2 x hx'

/-- `minScores` of a non-empty list is one of its members. -/
theorem minScores_mem (l : List Nat) (h : l ≠ []) : minScores l ∈ l := by
  have key : ∀ (xs : List Nat) (a : Nat), xs.foldl min a = a ∨ xs.foldl min a ∈ xs := by
    intro xs
    induction xs with
    | nil => intro a; exact Or.inl rfl
    | cons z zs ih =>
      intro a
      simp only [List.foldl_cons]
      rcases ih (min a z) with h1 | h1
      · rcases Nat.le_total a z with hz | hz
        · exact Or.inl (by rw [h1, min_eq_left hz])
        · exact Or.inr (by rw [h1, min_eq_right hz]; exact List.mem_cons_self _ _)
      · exact Or.inr (List.mem_cons_of_mem _ h1)
  cases l with
  | nil => exact absurd rfl h
  | cons a xs =>
    show xs.foldl min a ∈ a :: xs
    rcases key xs a with h1 | h1
    · rw [h1]; exact List.mem_cons_self _ _
    · exact List.mem_cons_of_mem _ h1

/-- Membership in `combos k l`: exactly the length-`k` sublists. -/
theorem mem_combos {α : Type} :
    ∀ {l : List α} {k : Nat} {c : List α}, c ∈ combos k l ↔ c.Sublist l ∧ c.length = k := by
  intro l
  induction l with
  | nil =>
    intro k c
    cases k with
    | zero =>
      simp only [combos, List.mem_singleton]
      constructor
      · rintro rfl; exact ⟨List.Sublist.refl _, rfl⟩
      · rintro ⟨hs, hl⟩; exact List.eq_nil_of_length_eq_zero hl
    | succ k =>
      simp only [combos, List.not_mem_nil, false_iff, not_and]
      intro hs hl
      rw [List.sublist_nil.mp hs] at hl
      simp at hl
  | cons x xs ih =>
    intro k c
    cases k with
    | zero =>
      simp only [combos, List.mem_singleton]
      constructor
      · rintro rfl; exact ⟨List.nil_sublist _, rfl⟩
      · rintro ⟨hs, hl⟩; exact List.eq_nil_of_length_eq_zero hl
    | succ k =>
      simp only [combos, List.mem_append, List.mem_map]
      constructor
      · rintro (⟨c', hc', rfl⟩ | hc)
        · obtain ⟨hs, hl⟩ := ih.mp hc'
          exact ⟨hs.cons₂ x, by simp [hl]⟩
        · obtain ⟨hs, hl⟩ := ih.mp hc
          exact ⟨hs.cons x, hl⟩
      · rintro ⟨hs, hl⟩
        cases hs with
        | cons _ hs' => exact Or.inr (ih.mpr ⟨hs', hl⟩)
        | cons₂ _ hs' =>
          exact Or.inl ⟨_, ih.mpr ⟨hs', by simpa using hl⟩, rfl⟩

/-- `combos k l` has `choose (length l) k` members. -/
theorem length_combos {α : Type} :
    ∀ (l : List α) (k : Nat), (combos k l).length = Nat.choose l.length k := by
  intro l
  induction l with
  | nil =>
    intro k
    cases k with
    | zero => rfl
    | succ k => rfl
  | cons x xs ih =>
    intro k
    cases k with
    | zero => rfl
    | succ k =>
      simp only [combos, List.length_append, List.length_map, ih, List.length_cons]
      rw [Nat.choose_succ_succ]

/-- A strictly descending list whose members lie in a strictly descending
list is one of its sublists. -/
theorem sublist_of_pairwise_gt :
    ∀ (v u : List Nat), v.Pairwise (· > ·) → u.Pairwise (· > ·) →
      (∀ x ∈ u, x ∈ v) → u.Sublist v := by
  intro v
  induction v with
  | nil =>
    intro u _ _ hm
    cases u with
    | nil => exact List.Sublist.refl _
    | cons a u' => exact absurd (hm a (List.mem_cons_self _ _)) (List.not_mem_nil _)
  | cons b v' ih =>
    intro u hv hu hm
    have hbv : ∀ y ∈ v', b > y := fun y hy => (List.pairwise_cons.mp hv).1 y hy
    cases u with
    | nil => exact List.nil_sublist _
    | cons a u' =>
      have hau : ∀ y ∈ u', a > y := fun y hy => (List.pairwise_cons.mp hu).1 y hy
      by_cases hab : a = b
      · subst hab
        refine (ih u' (List.pairwise_cons.mp hv).2 (List.pairwise_cons.mp hu).2 ?_).cons₂ a
        intro x hx
        rcases List.mem_cons.mp (hm x (List.mem_cons_of_mem _ hx)) with rfl | hx'
        · exact absurd (hau x hx) (lt_irrefl x)
        · exact hx'
      · have hav' : a ∈ v' := by
          rcases List.mem_cons.mp (hm a (List.mem_cons_self _ _)) with h | h
          · exact absurd h hab
          · exact h
        refine (ih (a :: u') (List.pairwise_cons.mp hv).2 hu ?_).cons b
        intro x hx
        rcases List.mem_cons.mp hx with rfl | hx'
        · exact hav'
        · rcases List.mem_cons.mp (hm x (List.mem_cons_of_mem _ hx')) with rfl | h
          · exact absurd (lt_trans (hau x hx') (hbv a hav')) (lt_irrefl x)
          · exact h

/-- Counts of two distinct values never exceed the length. -/
theorem two_count_le (a b : Nat) (l : List Nat) (hab : a ≠ b) :
    l.count a + l.count b ≤ l.length := by
  induction l with
  | nil => simp
  | cons x xs ih =>
    simp only [List.count_cons, List.length_cons]
    by_cases hxa : x = a <;> by_cases hxb : x = b <;> simp_all <;> omega

/-- Counts of three distinct values never exceed the length. -/
theorem three_count_le (a b c : Nat) (l : List Nat)
    (hab : a ≠ b) (hac : a ≠ c) (hbc : b ≠ c) :
    l.count a + l.count b + l.count c ≤ l.length := by
  induction l with
  | nil => simp
  | cons x xs ih =>
    simp only [List.count_cons, List.length_cons]
    by_cases hxa : x = a <;> by_cases hxb : x = b <;> by_cases hxc : x = c <;>
      simp_all <;> omega

/-- If every member is `a` or `b`, their two counts cover the length. -/
theorem count_cover (a b : Nat) (l : List Nat) (h : ∀ x ∈ l, x = a ∨ x = b) :
    l.length ≤ l.count a + l.count b := by
  induction l with
  | nil => simp
  | cons x xs ih =>
    have ih' := ih (fun y hy => h y (List.mem_cons_of_mem _ hy))
    simp only [List.count_cons, List.length_cons]
    rcases h x (List.mem_cons_self _ _) with rfl | rfl <;> simp <;> omega

/-- Summing the indicator of `a` over a list counts `a`. -/
theorem sum_indicator_eq_count (a : Nat) (l : List Nat) :
    (l.map (fun r => if r = a then 1 else 0)).sum = l.count a := by
  induction l with
  | nil => simp
  | cons x xs ih =>
    by_cases hx : x = a <;>
      simp [List.count_cons, hx, ih, Nat.add_comm] <;> omega

/-- The multiplicities of the distinct members sum to the length. -/
theorem sum_count_dedup (l : List Nat) :
    (l.dedup.map (fun r => l.count r)).sum = l.length := by
  induction l with
  | nil => simp
  | cons x xs ih =>
    by_cases hx : x ∈ xs
    · rw [List.dedup_cons_of_mem hx]
      have : (xs.dedup.map (fun r => (x :: xs).count r)).sum =
          (xs.dedup.map (fun r => xs.count r)).sum +
          (xs.dedup.map (fun r => if r = x then 1 else 0)).sum := by
        rw [← List.sum_map_add]
        refine congrArg List.sum (List.map_congr_left ?_)
        intro r _
        by_cases hrx : r = x <;> simp [List.count_cons, hrx] <;> omega
      rw [this, ih, sum_indicator_eq_count, List.count_dedup]
      simp [hx]
    · rw [List.dedup_cons_of_not_mem hx]
      simp only [List.map_cons, List.sum_cons]
      have : (xs.dedup.map (fun r => (x :: xs).count r)).sum =
          (xs.dedup.map (fun r => xs.count r)).sum +
          (xs.dedup.map (fun r => if r = x then 1 else 0)).sum := by
        rw [← List.sum_map_add]
        refine congrArg List.sum (List.map_congr_left ?_)
        intro r _
        by_cases hrx : r = x <;> simp [List.count_cons, hrx] <;> omega
      rw [this, ih, sum_indicator_eq_count, List.count_dedup]
      simp [hx, List.count_cons, List.count_eq_zero_of_not_mem hx]
      omega

/-- If every member maps to 1, the map sums to the length. -/
theorem sum_map_ones (l : List Nat) (f : Nat → Nat) (h : ∀ x ∈ l, f x = 1) :
    (l.map f).sum = l.length := by
  induction l with
  | nil => simp
  | cons x xs ih =>
    simp only [List.map_cons, List.sum_cons, h x (List.mem_cons_self _ _),
      ih (fun y hy => h y (List.mem_cons_of_mem _ hy)), List.length_cons]
    omega

/-- The quad/boat kicker index stays below 12. -/
theorem kickerIdx1_le (k q : Nat) (hk2 : 2 ≤ k) (hk14 : k ≤ 14)
    (hq2 : 2 ≤ q) (hq14 : q ≤ 14) (hne : k ≠ q) : kickerIdx1 k q ≤ 11 := by
  unfold kickerIdx1
  split <;> omega

/-- The two-pair kicker index stays below 11. -/
theorem kickerIdx2_le (k p1 p2 : Nat) (hk2 : 2 ≤ k) (hk14 : k ≤ 14)
    (hp12 : 2 ≤ p1) (hp114 : p1 ≤ 14) (hp22 : 2 ≤ p2) (hp214 : p2 ≤ 14)
    (hne1 : k ≠ p1) (hne2 : k ≠ p2) (hp : p1 ≠ p2) : kickerIdx2 k p1 p2 ≤ 10 := by
  unfold kickerIdx2
  split <;> split <;> omega

/-- Every rank between 2 and 14 appears in the canonical rank list. -/
theorem mem_ranksDesc (r : Nat) (h2 : 2 ≤ r) (h14 : r ≤ 14) : r ∈ ranksDesc := by
  interval_cases r <;> decide

/-- The canonical rank list is strictly descending. -/
theorem ranksDesc_sorted : ranksDesc.Pairwise (· > ·) := by decide

/-- Removing one rank from the thirteen leaves twelve. -/
theorem rank_filter_len (t : Nat) (h2 : 2 ≤ t) (h14 : t ≤ 14) :
    (ranksDesc.filter (fun r => r ≠ t)).length = 12 := by
  interval_cases t <;> decide

set_option maxRecDepth 100000 in
/-- There are 1277 non-straight descending 5-rank combinations. -/
theorem flushCombos_len : flushCombos.length = 1277 := by decide

/-- There are 78 descending rank pairs. -/
theorem pairPairCombos_len : pairPairCombos.length = 78 := by decide

/-- A straight's high card lies between 5 and 14. -/
theorem straightHigh_bounds (u : List Nat) (hm : ∀ r ∈ u, 2 ≤ r ∧ r ≤ 14)
    (a : Nat) (h : straightHigh u = some a) : 5 ≤ a ∧ a ≤ 14 := by
  unfold straightHigh at h
  by_cases hw : u = [14, 5, 4, 3, 2]
  · rw [if_pos hw] at h
    cases h
    omega
  · rw [if_neg hw] at h
    split at h
    · rename_i x1 x2 x3 x4 x5
      split at h
      · rename_i hcond
        cases h
        simp only [Bool.and_eq_true, beq_iff_eq] at hcond
        have h1 := hm a (by simp)
        have h5 := (hm x5 (by simp)).1
        omega
      · cases h
    · cases h


/-- Every 5-card rank profile drawn from a real deck scores in 1..7462. -/
theorem eval5Ranks_range (s : List Nat) (flush : Bool)
    (hlen : s.length = 5)
    (hsort : s.Pairwise (· ≥ ·))
    (hmem : ∀ r ∈ s, 2 ≤ r ∧ r ≤ 14)
    (hcnt : ∀ r, s.count r ≤ 4)
    (hfl : flush = true → s.Nodup) :
    1 ≤ eval5Ranks s flush ∧ eval5Ranks s flush ≤ 7462 := by
  have hud : s.dedup.Nodup := List.nodup_dedup s
  have humem : ∀ r ∈ s.dedup, 2 ≤ r ∧ r ≤ 14 := fun r hr => hmem r (List.mem_dedup.mp hr)
  have husub : s.dedup.Sublist s := List.dedup_sublist s
  have husort : s.dedup.Pairwise (· > ·) := by
    have h1 : s.dedup.Pairwise (· ≥ ·) := hsort.sublist husub
    have h2 : s.dedup.Pairwise (· ≠ ·) := hud
    exact (h1.and h2).imp (fun hab => lt_of_le_of_ne hab.1 (Ne.symm hab.2))
  have hsum : (s.dedup.map (fun r => s.count r)).sum = 5 := by rw [sum_count_dedup, hlen]
  simp only [eval5Ranks]
  split
  · rename_i h heq
    have := straightHigh_bounds s.dedup humem h heq
    omega
  · split
    · rename_i q heq4
      have hq_mem : q ∈ s.dedup := List.mem_of_find?_eq_some heq4
      have hq4 : s.count q = 4 := by
        have := List.find?_some heq4
        simpa using this
      have hqb := humem q hq_mem
      have hfne : s.dedup.filter (fun r => r ≠ q) ≠ [] := by
        intro h0
        have hall : ∀ r ∈ s, q = r := by
          intro r hr
          by_contra hne
          have hmf : r ∈ s.dedup.filter (fun r => r ≠ q) :=
            List.mem_filter.mpr ⟨List.mem_dedup.mpr hr, by simpa using Ne.symm hne⟩
          rw [h0] at hmf
          cases hmf
        have hcl : s.count q = s.length := List.count_eq_length.mpr hall
        omega
      rcases hflt : s.dedup.filter (fun r => r ≠ q) with _ | ⟨k0, rest⟩
      · exact absurd hflt hfne
      · have hk0f : k0 ∈ s.dedup.filter (fun r => r ≠ q) := by
          rw [hflt]
          exact List.mem_cons_self _ _
        have hk0u : k0 ∈ s.dedup := List.mem_of_mem_filter hk0f
        have hk0q : k0 ≠ q := by simpa using List.of_mem_filter hk0f
        have hkb := humem k0 hk0u
        have hki := kickerIdx1_le k0 q hkb.1 hkb.2 hqb.1 hqb.2 hk0q
        simp only [List.headD_cons]
        omega
    · split
      · rename_i t p tail heq3 heqp
        have ht_mem : t ∈ s.dedup := List.mem_of_find?_eq_some heq3
        have ht3 : s.count t = 3 := by simpa using List.find?_some heq3
        have hpf : p ∈ s.dedup.filter (fun r => s.count r == 2) := by
          rw [heqp]
          exact List.mem_cons_self _ _
        have hp_mem : p ∈ s.dedup := List.mem_of_mem_filter hpf
        have hp2 : s.count p = 2 := by simpa using List.of_mem_filter hpf
        have hpt : p ≠ t := fun hh => by rw [hh] at hp2; omega
        have htb := humem t ht_mem
        have hpb := humem p hp_mem
        have hki := kickerIdx1_le p t hpb.1 hpb.2 htb.1 htb.2 hpt
        omega
      · split
        · rename_i fl8 hsf hx3 hq4n hx2 hx1 hnb hf
          have hnod := hfl hf
          have hu_eq : s.dedup = s := List.dedup_eq_self.mpr hnod
          have hshn : straightHigh s.dedup = none := by
            cases hsh : straightHigh s.dedup with
            | none => rfl
            | some h => exact (hsf h hsh hf).elim
          have hsubl : s.dedup.Sublist ranksDesc :=
            sublist_of_pairwise_gt ranksDesc s.dedup ranksDesc_sorted husort
              (fun x hx => mem_ranksDesc x (humem x hx).1 (humem x hx).2)
          have hlen5 : s.dedup.length = 5 := by rw [hu_eq, hlen]
          have hmemc : s.dedup ∈ combos 5 ranksDesc := mem_combos.mpr ⟨hsubl, hlen5⟩
          have hmemf : s.dedup ∈ flushCombos :=
            List.mem_filter.mpr ⟨hmemc, by simp [hshn]⟩
          have hidx : comboIdxIn flushCombos s.dedup < 1277 := by
            have h1 : List.findIdx (· == s.dedup) flushCombos < flushCombos.length :=
              List.findIdx_lt_length_of_exists ⟨s.dedup, hmemf, beq_self_eq_true _⟩
            rw [flushCombos_len] at h1
            exact h1
          omega
        · split
          · rename_i h heqs
            have := straightHigh_bounds s.dedup humem h heqs
            omega
          · split
            · rename_i hq4n hx4 hx3 hnb hnfl hx1 hshn hx0 t heq3
              have ht_mem : t ∈ s.dedup := List.mem_of_find?_eq_some heq3
              have ht3 : s.count t = 3 := by simpa using List.find?_some heq3
              have htb := humem t ht_mem
              have hfl2 : s.dedup.filter (fun r => s.count r == 2) = [] := by
                rcases h2 : s.dedup.filter (fun r => s.count r == 2) with _ | ⟨p, tail⟩
                · rfl
                · exact (hnb t p tail heq3 h2).elim
              have hno2 : ∀ r ∈ s.dedup, s.count r ≠ 2 := by
                intro r hr h2
                have hmm : r ∈ s.dedup.filter (fun r => s.count r == 2) :=
                  List.mem_filter.mpr ⟨hr, by simpa using h2⟩
                rw [hfl2] at hmm
                cases hmm
              have hno4 : ∀ r ∈ s.dedup, s.count r ≠ 4 := by
                intro r hr h4
                have hf := List.find?_eq_none.mp hq4n r hr
                simp [h4] at hf
              have hone : ∀ r ∈ s.dedup, r ≠ t → s.count r = 1 := by
                intro r hr hrt
                have h1 : 0 < s.count r := List.count_pos_iff.mpr (List.mem_dedup.mp hr)
                have h2 := hno2 r hr
                have h4 := hno4 r hr
                have h3 : s.count r ≠ 3 := by
                  intro h3
                  have h23 := two_count_le t r s (Ne.symm hrt)
                  omega
                have hc4 := hcnt r
                omega
              have hperm2 : s.dedup.Perm (t :: s.dedup.erase t) := List.perm_cons_erase ht_mem
              have hsum2 : ((t :: s.dedup.erase t).map (fun r => s.count r)).sum = 5 := by
                have h5 := (hperm2.map (fun r => s.count r)).sum_eq
                rw [hsum] at h5
                exact h5.symm
              have hkick : ((s.dedup.erase t).map (fun r => s.count r)).sum = 2 := by
                simp only [List.map_cons, List.sum_cons, ht3] at hsum2
                omega
              have hfeq : s.dedup.filter (fun r => r ≠ t) = s.dedup.erase t := by
                rw [List.Nodup.erase_eq_filter hud]
                apply List.filter_congr
                intro x _
                by_cases hxt : x = t <;> simp [bne, hxt]
              have hwlen : (s.dedup.filter (fun r => r ≠ t)).length = 2 := by
                rw [hfeq]
                rw [← sum_map_ones (s.dedup.erase t) (fun r => s.count r) ?ones]
                · exact hkick
                case ones =>
                  intro r hr
                  have hru := (hud.mem_erase_iff.mp hr)
                  exact hone r hru.2 hru.1
              have hwsort : (s.dedup.filter (fun r => r ≠ t)).Pairwise (· > ·) :=
                husort.filter _
              have hwsub : (s.dedup.filter (fun r => r ≠ t)).Sublist
                  (ranksDesc.filter (fun r => r ≠ t)) := by
                refine sublist_of_pairwise_gt _ _ (ranksDesc_sorted.filter _) hwsort ?_
                intro x hx
                have hxu := List.mem_of_mem_filter hx
                have hxt : x ≠ t := by simpa using List.of_mem_filter hx
                have hxb := humem x hxu
                exact List.mem_filter.mpr ⟨mem_ranksDesc x hxb.1 hxb.2, by simpa using hxt⟩
              have hwmem : (s.dedup.filter (fun r => r ≠ t)) ∈ kicker2Combos t := by
                unfold kicker2Combos
                exact mem_combos.mpr ⟨hwsub, hwlen⟩
              have hklen : (kicker2Combos t).length = 66 := by
                unfold kicker2Combos
                rw [length_combos, rank_filter_len t htb.1 htb.2]
                decide
              have hidx : comboIdxIn (kicker2Combos t) (s.dedup.filter (fun r => r ≠ t)) < 66 := by
                have h1 : List.findIdx (· == (s.dedup.filter (fun r => r ≠ t)))
                    (kicker2Combos t) < (kicker2Combos t).length :=
                  List.findIdx_lt_length_of_exists ⟨_, hwmem, beq_self_eq_true _⟩
                rw [hklen] at h1
                exact h1
              omega
            · split
              · rename_i h3n prs p1 p2 heqp
                have hp1f : p1 ∈ s.dedup.filter (fun r => s.count r == 2) := by
                  rw [heqp]
                  exact List.mem_cons_self _ _
                have hp2f : p2 ∈ s.dedup.filter (fun r => s.count r == 2) := by
                  rw [heqp]
                  simp
                have hp1u := List.mem_of_mem_filter hp1f
                have hp2u := List.mem_of_mem_filter hp2f
                have hp1c : s.count p1 = 2 := by simpa using List.of_mem_filter hp1f
                have hp2c : s.count p2 = 2 := by simpa using List.of_mem_filter hp2f
                have hp1b := humem p1 hp1u
                have hp2b := humem p2 hp2u
                have hord : p1 > p2 := by
                  have hps : (s.dedup.filter (fun r => s.count r == 2)).Pairwise (· > ·) :=
                    husort.filter _
                  rw [heqp] at hps
                  exact (List.pairwise_cons.mp hps).1 p2 (List.mem_cons_self _ _)
                have hp12 : p1 ≠ p2 := Nat.ne_of_gt hord
                have hkf : s.dedup.filter (fun r => r ≠ p1 ∧ r ≠ p2) ≠ [] := by
                  intro h0
                  have hall : ∀ x ∈ s, x = p1 ∨ x = p2 := by
                    intro x hx
                    by_contra hcon
                    push_neg at hcon
                    have hxm : x ∈ s.dedup.filter (fun r => r ≠ p1 ∧ r ≠ p2) :=
                      List.mem_filter.mpr ⟨List.mem_dedup.mpr hx, by simpa using hcon⟩
                    rw [h0] at hxm
                    cases hxm
                  have := count_cover p1 p2 s hall
                  omega
                rcases hkl : s.dedup.filter (fun r => r ≠ p1 ∧ r ≠ p2) with _ | ⟨k0, rest⟩
                · exact absurd hkl hkf
                · have hk0f : k0 ∈ s.dedup.filter (fun r => r ≠ p1 ∧ r ≠ p2) := by
                    rw [hkl]
                    exact List.mem_cons_self _ _
                  have hk0u := List.mem_of_mem_filter hk0f
                  have hk0ne : k0 ≠ p1 ∧ k0 ≠ p2 := by simpa using List.of_mem_filter hk0f
                  have hk0b := humem k0 hk0u
                  have hki := kickerIdx2_le k0 p1 p2 hk0b.1 hk0b.2 hp1b.1 hp1b.2 hp2b.1
                    hp2b.2 hk0ne.1 hk0ne.2 hp12
                  have hpsub : ([p1, p2] : List Nat).Sublist ranksDesc := by
                    refine sublist_of_pairwise_gt _ _ ranksDesc_sorted
                      (by simp [List.pairwise_cons, hord]) ?_
                    intro x hx
                    rcases List.mem_cons.mp hx with rfl | hx'
                    · exact mem_ranksDesc _ hp1b.1 hp1b.2
                    rcases List.mem_cons.mp hx' with rfl | h0
                    · exact mem_ranksDesc _ hp2b.1 hp2b.2
                    · cases h0
                  have hpmem : ([p1, p2] : List Nat) ∈ pairPairCombos := by
                    unfold pairPairCombos
                    exact mem_combos.mpr ⟨hpsub, rfl⟩
                  have hpidx : comboIdxIn pairPairCombos [p1, p2] < 78 := by
                    have h1 : List.findIdx (· == ([p1, p2] : List Nat)) pairPairCombos <
                        pairPairCombos.length :=
                      List.findIdx_lt_length_of_exists ⟨_, hpmem, beq_self_eq_true _⟩
                    rw [pairPairCombos_len] at h1
                    exact h1
                  simp only [List.headD_cons]
                  omega
              · rename_i hq4n hx4 hx3 hnb hnfl hx1 hshn hx0 h3n prs p heqp
                have hpf : p ∈ s.dedup.filter (fun r => s.count r == 2) := by
                  rw [heqp]
                  exact List.mem_cons_self _ _
                have hp_mem := List.mem_of_mem_filter hpf
                have hp2 : s.count p = 2 := by simpa using List.of_mem_filter hpf
                have hpb := humem p hp_mem
                have hno3 : ∀ r ∈ s.dedup, s.count r ≠ 3 := by
                  intro r hr h3
                  have hf := List.find?_eq_none.mp h3n r hr
                  simp [h3] at hf
                have hno4 : ∀ r ∈ s.dedup, s.count r ≠ 4 := by
                  intro r hr h4
                  have hf := List.find?_eq_none.mp hq4n r hr
                  simp [h4] at hf
                have hone : ∀ r ∈ s.dedup, r ≠ p → s.count r = 1 := by
                  intro r hr hrp
                  have h1 : 0 < s.count r := List.count_pos_iff.mpr (List.mem_dedup.mp hr)
                  have h3 := hno3 r hr
                  have h4 := hno4 r hr
                  have h2 : s.count r ≠ 2 := by
                    intro h2
                    have hrf : r ∈ s.dedup.filter (fun r => s.count r == 2) :=
                      List.mem_filter.mpr ⟨hr, by simpa using h2⟩
                    rw [heqp] at hrf
                    rcases List.mem_cons.mp hrf with rfl | h0
                    · exact hrp rfl
                    · cases h0
                  have := hcnt r
                  omega
                have hperm2 : s.dedup.Perm (p :: s.dedup.erase p) := List.perm_cons_erase hp_mem
                have hsum2 : ((p :: s.dedup.erase p).map (fun r => s.count r)).sum = 5 := by
                  have h5 := (hperm2.map (fun r => s.count r)).sum_eq
                  rw [hsum] at h5
                  exact h5.symm
                have hkick : ((s.dedup.erase p).map (fun r => s.count r)).sum = 3 := by
                  simp only [List.map_cons, List.sum_cons, hp2] at hsum2
                  omega
                have hfeq : s.dedup.filter (fun r => r ≠ p) = s.dedup.erase p := by
                  rw [List.Nodup.erase_eq_filter hud]
                  apply List.filter_congr
                  intro x _
                  by_cases hxp : x = p <;> simp [bne, hxp]
                have hwlen : (s.dedup.filter (fun r => r ≠ p)).length = 3 := by
                  rw [hfeq]
                  rw [← sum_map_ones (s.dedup.erase p) (fun r => s.count r) ?ones]
                  · exact hkick
                  case ones =>
                    intro r hr
                    have hru := (hud.mem_erase_iff.mp hr)
                    exact hone r hru.2 hru.1
                have hwsort : (s.dedup.filter (fun r => r ≠ p)).Pairwise (· > ·) :=
                  husort.filter _
                have hwsub : (s.dedup.filter (fun r => r ≠ p)).Sublist
                    (ranksDesc.filter (fun r => r ≠ p)) := by
                  refine sublist_of_pairwise_gt _ _ (ranksDesc_sorted.filter _) hwsort ?_
                  intro x hx
                  have hxu := List.mem_of_mem_filter hx
                  have hxp : x ≠ p := by simpa using List.of_mem_filter hx
                  have hxb := humem x hxu
                  exact List.mem_filter.mpr ⟨mem_ranksDesc x hxb.1 hxb.2, by simpa using hxp⟩
                have hwmem : (s.dedup.filter (fun r => r ≠ p)) ∈ kicker3Combos p := by
                  unfold kicker3Combos
                  exact mem_combos.mpr ⟨hwsub, hwlen⟩
                have hklen : (kicker3Combos p).length = 220 := by
                  unfold kicker3Combos
                  rw [length_combos, rank_filter_len p hpb.1 hpb.2]
                  decide
                have hidx : comboIdxIn (kicker3Combos p) (s.dedup.filter (fun r => r ≠ p)) < 220 := by
                  have h1 : List.findIdx (· == (s.dedup.filter (fun r => r ≠ p)))
                      (kicker3Combos p) < (kicker3Combos p).length :=
                    List.findIdx_lt_length_of_exists ⟨_, hwmem, beq_self_eq_true _⟩
                  rw [hklen] at h1
                  exact h1
                omega
              · rename_i hq4n hx4 hx3 hnb hnfl hx1 hshn hx0 h3n prs hno2p hno1p
                have hfl2 : s.dedup.filter (fun r => s.count r == 2) = [] := by
                  rcases h2 : s.dedup.filter (fun r => s.count r == 2) with
                    _ | ⟨q1, _ | ⟨q2, _ | ⟨q3, tl⟩⟩⟩
                  · rfl
                  · exact (hno1p q1 h2).elim
                  · exact (hno2p q1 q2 h2).elim
                  · exfalso
                    have hq1f : q1 ∈ s.dedup.filter (fun r => s.count r == 2) := by
                      rw [h2]
                      simp
                    have hq2f : q2 ∈ s.dedup.filter (fun r => s.count r == 2) := by
                      rw [h2]
                      simp
                    have hq3f : q3 ∈ s.dedup.filter (fun r => s.count r == 2) := by
                      rw [h2]
                      simp
                    have hc1 : s.count q1 = 2 := by simpa using List.of_mem_filter hq1f
                    have hc2 : s.count q2 = 2 := by simpa using List.of_mem_filter hq2f
                    have hc3 : s.count q3 = 2 := by simpa using List.of_mem_filter hq3f
                    have hps : (s.dedup.filter (fun r => s.count r == 2)).Pairwise (· > ·) :=
                      husort.filter _
                    rw [h2] at hps
                    have h12 : q1 > q2 := (List.pairwise_cons.mp hps).1 q2 (by simp)
                    have h13 : q1 > q3 := (List.pairwise_cons.mp hps).1 q3 (by simp)
                    have h23 : q2 > q3 :=
                      (List.pairwise_cons.mp (List.pairwise_cons.mp hps).2).1 q3 (by simp)
                    have := three_count_le q1 q2 q3 s (Nat.ne_of_gt h12) (Nat.ne_of_gt h13)
                      (Nat.ne_of_gt h23)
                    omega
                have hno2 : ∀ r ∈ s.dedup, s.count r ≠ 2 := by
                  intro r hr h2
                  have hmf : r ∈ s.dedup.filter (fun r => s.count r == 2) :=
                    List.mem_filter.mpr ⟨hr, by simpa using h2⟩
                  rw [hfl2] at hmf
                  cases hmf
                have hno3 : ∀ r ∈ s.dedup, s.count r ≠ 3 := by
                  intro r hr h3
                  have hf := List.find?_eq_none.mp h3n r hr
                  simp [h3] at hf
                have hno4 : ∀ r ∈ s.dedup, s.count r ≠ 4 := by
                  intro r hr h4
                  have hf := List.find?_eq_none.mp hq4n r hr
                  simp [h4] at hf
                have hone : ∀ r ∈ s.dedup, s.count r = 1 := by
                  intro r hr
                  have h1 : 0 < s.count r := List.count_pos_iff.mpr (List.mem_dedup.mp hr)
                  have h2 := hno2 r hr
                  have h3 := hno3 r hr
                  have h4 := hno4 r hr
                  have := hcnt r
                  omega
                have hulen : s.dedup.length = 5 := by
                  rw [sum_map_ones s.dedup (fun r => s.count r) hone] at hsum
                  exact hsum
                have hsubl : s.dedup.Sublist ranksDesc :=
                  sublist_of_pairwise_gt ranksDesc s.dedup ranksDesc_sorted husort
                    (fun x hx => mem_ranksDesc x (humem x hx).1 (humem x hx).2)
                have hmemc : s.dedup ∈ combos 5 ranksDesc := mem_combos.mpr ⟨hsubl, hulen⟩
                have hmemf : s.dedup ∈ flushCombos :=
                  List.mem_filter.mpr ⟨hmemc, by simp [hshn]⟩
                have hidx : comboIdxIn flushCombos s.dedup < 1277 := by
                  have h1 : List.findIdx (· == s.dedup) flushCombos < flushCombos.length :=
                    List.findIdx_lt_length_of_exists ⟨s.dedup, hmemf, beq_self_eq_true _⟩
                  rw [flushCombos_len] at h1
                  exact h1
                omega

/-- Descending insertion permutes. -/
theorem insertDesc_perm (x : Nat) (l : List Nat) : (insertDesc x l).Perm (x :: l) := by
  induction l with
  | nil => simp [insertDesc]
  | cons y ys ih =>
    by_cases h : y ≤ x
    · simp [insertDesc, h]
    · simp only [insertDesc, if_neg h]
      exact (ih.cons y).trans (List.Perm.swap x y ys)

/-- The rank sort permutes. -/
theorem sortDesc_perm (l : List Nat) : (sortDesc l).Perm l := by
  induction l with
  | nil => exact List.Perm.refl _
  | cons x xs ih => exact (insertDesc_perm x (sortDesc xs)).trans (ih.cons x)

/-- Descending insertion preserves descending order. -/
theorem insertDesc_sorted {x : Nat} {l : List Nat} (h : l.Pairwise (· ≥ ·)) :
    (insertDesc x l).Pairwise (· ≥ ·) := by
  induction l with
  | nil => simp [insertDesc]
  | cons y ys ih =>
    rw [List.pairwise_cons] at h
    by_cases hxy : y ≤ x
    · simp only [insertDesc, if_pos hxy, List.pairwise_cons]
      refine ⟨?_, h.1, h.2⟩
      intro b hb
      rcases List.mem_cons.mp hb with rfl | hb
      · omega
      · have := h.1 b hb
        omega
    · simp only [insertDesc, if_neg hxy, List.pairwise_cons]
      refine ⟨?_, ih h.2⟩
      intro b hb
      have hmm := (insertDesc_perm x ys).mem_iff.mp hb
      rcases List.mem_cons.mp hmm with rfl | hb'
      · omega
      · exact h.1 b hb'

/-- The rank sort sorts descending. -/
theorem sortDesc_sorted (l : List Nat) : (sortDesc l).Pairwise (· ≥ ·) := by
  induction l with
  | nil => simp [sortDesc]
  | cons x xs ih => exact insertDesc_sorted ih

/-- Every canonical card's rank is one of 2..14. -/
theorem deckNew_rank_bounds : ∀ c ∈ deckNew, 2 ≤ cardRank c ∧ cardRank c ≤ 14 := by decide

/-- Within one suit, canonical cards are determined by their rank. -/
theorem deckNew_suit_rank_inj : ∀ c ∈ deckNew, ∀ e ∈ deckNew,
    c.suit = e.suit → cardRank c = cardRank e → c = e := by decide

/-- At most four canonical cards share a rank. -/
theorem deckNew_countRank (r : Nat) (h2 : 2 ≤ r) (h14 : r ≤ 14) :
    deckNew.countP (fun c => cardRank c == r) ≤ 4 := by
  interval_cases r <;> decide

/-- Every 5 distinct real cards score in 1..7462. -/
theorem eval5_range (cards : List Card) (h5 : cards.length = 5)
    (hv : ∀ c ∈ cards, c ∈ deckNew) (hnd : cards.Nodup) :
    1 ≤ eval5 cards ∧ eval5 cards ≤ 7462 := by
  have hperm : (sortDesc (cards.map cardRank)).Perm (cards.map cardRank) := sortDesc_perm _
  have hlen : (sortDesc (cards.map cardRank)).length = 5 := by
    rw [hperm.length_eq, List.length_map, h5]
  have hsort := sortDesc_sorted (cards.map cardRank)
  have hmem : ∀ r ∈ sortDesc (cards.map cardRank), 2 ≤ r ∧ r ≤ 14 := by
    intro r hr
    obtain ⟨c, hc, rfl⟩ := List.mem_map.mp (hperm.mem_iff.mp hr)
    exact deckNew_rank_bounds c (hv c hc)
  have hcnt : ∀ r, (sortDesc (cards.map cardRank)).count r ≤ 4 := by
    intro r
    rw [hperm.count_eq]
    by_cases hr : r ∈ cards.map cardRank
    · obtain ⟨c0, hc0, rfl⟩ := List.mem_map.mp hr
      have hb := deckNew_rank_bounds c0 (hv c0 hc0)
      have h1 : (cards.map cardRank).count (cardRank c0) =
          cards.countP (fun c => cardRank c == cardRank c0) := by
        simp [List.count, List.countP_map]
        rfl
      rw [h1]
      calc cards.countP (fun c => cardRank c == cardRank c0)
          ≤ deckNew.countP (fun c => cardRank c == cardRank c0) :=
            List.Subperm.countP_le _ (List.subperm_of_subset hnd (fun x hx => hv x hx))
        _ ≤ 4 := deckNew_countRank _ hb.1 hb.2
    · rw [List.count_eq_zero_of_not_mem hr]
      omega
  refine eval5Ranks_range _ _ hlen hsort hmem hcnt ?_
  intro hf
  rw [hperm.nodup_iff]
  cases cards with
  | nil => cases hf
  | cons c0 rest =>
    have hall : ∀ x ∈ (c0 :: rest), x.suit = c0.suit := by
      intro x hx
      rcases List.mem_cons.mp hx with rfl | hx'
      · rfl
      · have := List.all_eq_true.mp hf x hx'
        simpa using this
    refine List.Nodup.map_on ?_ hnd
    intro x hx y hy hfxy
    exact deckNew_suit_rank_inj x (hv x hx) y (hv y hy)
      (by rw [hall x hx, hall y hy]) hfxy

/-- Parsing a canonical card's two-character string recovers the card. -/
theorem deckNew_card_roundtrip : ∀ c ∈ deckNew,
    (Deck.marshal (Card.str c)).headD { type := "", suit := "" } = c := by decide

set_option maxRecDepth 400000 in
/-- Claim C9: on every 5, 6 or 7 distinct real cards the evaluator
(`EvaluateHand`, through the spec-modelled `Logic`) returns the score of
the best 5-card subset — it is bounded below by every 5-card subset's
`eval5` score and attained by one of them — always in the 1..7462 band of
the canonical strength classes (lower = stronger), and the five reference
hands score exactly 1, 20, 1604, 7462 and 50. -/
theorem evaluator_spec (cards : List Card)
    (hlen : cards.length = 5 ∨ cards.length = 6 ∨ cards.length = 7)
    (hv : ∀ c ∈ cards, c ∈ deckNew) (hnd : cards.Nodup) :
    EvaluateHand cards = evalBest cards ∧
    1 ≤ evalBest cards ∧ evalBest cards ≤ 7462 ∧
    (∀ s, s.Sublist cards → s.length = 5 → evalBest cards ≤ eval5 s) ∧
    (∃ s, s.Sublist cards ∧ s.length = 5 ∧ evalBest cards = eval5 s) ∧
    Logic ["As", "Ks", "Qs", "Js", "Ts"] = 1 ∧
    Logic ["Ah", "Ad", "4s", "Ac", "As"] = 20 ∧
    Logic ["Ts", "9d", "8c", "7c", "6h"] = 1604 ∧
    Logic ["7h", "5d", "4c", "3s", "2h"] = 7462 ∧
    Logic ["Js", "Jh", "Jc", "Js", "Ts", "2d", "3c"] = 50 := by
  have hEe : EvaluateHand cards = evalBest cards := by
    have hmap : (cards.map Card.str).map
        (fun cs => (Deck.marshal cs).headD { type := "", suit := "" }) = cards := by
      rw [List.map_map]
      exact (List.map_congr_left
        (fun c hc => deckNew_card_roundtrip c (hv c hc))).trans (List.map_id _)
    show evalBest ((cards.map Card.str).map
      (fun cs => (Deck.marshal cs).headD { type := "", suit := "" })) = evalBest cards
    rw [hmap]
  have hcpos : 0 < (combos 5 cards).length := by
    rw [length_combos]
    rcases hlen with h | h | h <;> rw [h] <;> decide
  have hne : ((combos 5 cards).map eval5) ≠ [] := by
    rw [← List.length_pos]
    rw [List.length_map]
    exact hcpos
  have hmin_mem := minScores_mem ((combos 5 cards).map eval5) hne
  obtain ⟨s0, hs0c, hs0e⟩ := List.mem_map.mp hmin_mem
  obtain ⟨hs0sub, hs0len⟩ := mem_combos.mp hs0c
  have hs0range := eval5_range s0 hs0len
    (fun c hc => hv c (hs0sub.subset hc)) (hnd.sublist hs0sub)
  have hlb : ∀ s, s.Sublist cards → s.length = 5 → evalBest cards ≤ eval5 s := by
    intro s hs hl
    exact minScores_le_of_mem _ _ (List.mem_map_of_mem _ (mem_combos.mpr ⟨hs, hl⟩))
  refine ⟨hEe, ?_, ?_, hlb, ⟨s0, hs0sub, hs0len, hs0e.symm⟩, by decide, by decide,
    by decide, by decide, by decide⟩
  · show 1 ≤ minScores ((combos 5 cards).map eval5)
    rw [hs0e] at hs0range
    exact hs0range.1
  · show minScores ((combos 5 cards).map eval5) ≤ 7462
    rw [hs0e] at hs0range
    exact hs0range.2

/-- Witness: the royal-flush hand satisfies the hypotheses, and the
evaluator scores it 1. -/
theorem evaluator_spec_witness :
    EvaluateHand [⟨"A", "s"⟩, ⟨"K", "s"⟩, ⟨"Q", "s"⟩, ⟨"J", "s"⟩, ⟨"T", "s"⟩] =
      evalBest [⟨"A", "s"⟩, ⟨"K", "s"⟩, ⟨"Q", "s"⟩, ⟨"J", "s"⟩, ⟨"T", "s"⟩] ∧
    1 ≤ evalBest [⟨"A", "s"⟩, ⟨"K", "s"⟩, ⟨"Q", "s"⟩, ⟨"J", "s"⟩, ⟨"T", "s"⟩] ∧
    evalBest [⟨"A", "s"⟩, ⟨"K", "s"⟩, ⟨"Q", "s"⟩, ⟨"J", "s"⟩, ⟨"T", "s"⟩] ≤ 7462 := by
  obtain ⟨h1, h2, h3, -⟩ := evaluator_spec
    [⟨"A", "s"⟩, ⟨"K", "s"⟩, ⟨"Q", "s"⟩, ⟨"J", "s"⟩, ⟨"T", "s"⟩]
    (Or.inl rfl) (by decide) (by decide)
  exact ⟨h1, h2, h3⟩

end Poker
